import Mathlib

/-!
Verification of the Frontend-Tracking-Tool event-normalization core.

The JavaScript sources (src/utils/const.js and src/utils/parseWithWebWorker.js)
are shallowly embedded below.  JavaScript values are modelled by `JSValue`,
JavaScript strings by Lean `String` over unicode scalar values, machine
numbers by `Int` (the claims under study never observe fractional values or
NaN), and the fallible platform builtins (JSON.parse, atob, TextDecoder /
decodeURIComponent UTF-8 decoding) by executable Lean models that return
`Option` instead of throwing.  `Date.now()` is threaded through as an
explicit `now` argument.
-/

namespace FTT

/-- Model of a JavaScript runtime value.  `undef` is `undefined`; object
fields are an ordered association list, mirroring JS property insertion
order. -/
inductive JSValue : Type where
  | undef : JSValue
  | null : JSValue
  | bool : Bool → JSValue
  | num : Int → JSValue
  | str : String → JSValue
  | arr : List JSValue → JSValue
  | obj : List (String × JSValue) → JSValue

namespace JSValue

/-- JavaScript truthiness of a value. -/
def truthy : JSValue → Bool
  | undef => false
  | null => false
  | bool b => b
  | num n => n != 0
  | str s => s != ""
  | arr _ => true
  | obj _ => true

/-- Property read `v[k]`: first matching key of an object, `undefined`
otherwise (the sources never build objects with duplicate keys). -/
def getField : JSValue → String → JSValue
  | obj fs, k => ((fs.find? (fun p => p.1 == k)).map Prod.snd).getD undef
  | _, _ => undef

/-- Whether an object carries the key `k` at all (present even if its value
is `undefined` would not occur in these sources). -/
def hasField : JSValue → String → Bool
  | obj fs, k => fs.any (fun p => p.1 == k)
  | _, _ => false

/-- JavaScript `a || b`. -/
def jsOr (a b : JSValue) : JSValue := if a.truthy then a else b

/-- JavaScript loose equality with null (`v == null`), true exactly for
`null` and `undefined`. -/
def looseNull : JSValue → Bool
  | null => true
  | undef => true
  | _ => false

/-- JavaScript `typeof v === 'object'` (true for objects, arrays and null). -/
def typeofObject : JSValue → Bool
  | obj _ => true
  | arr _ => true
  | null => true
  | _ => false

/-- JavaScript `typeof v === 'string'`. -/
def typeofString : JSValue → Bool
  | str _ => true
  | _ => false

/-- JavaScript `Array.isArray`. -/
def isArray : JSValue → Bool
  | arr _ => true
  | _ => false

end JSValue

/-! ## Character classes and JavaScript string trimming -/

/-- Whitespace stripped by `String.prototype.trim` (the ASCII forms plus
NBSP and BOM; the sources only ever meet the ASCII ones). -/
def isTrimWs (c : Char) : Bool :=
  c == ' ' || c == '\t' || c == '\n' || c == '\r' ||
  c == '\x0b' || c == '\x0c' || c == ' ' || c == '﻿'

/-- JSON whitespace (RFC 8259: space, tab, line feed, carriage return). -/
def isJsonWs (c : Char) : Bool :=
  c == ' ' || c == '\t' || c == '\n' || c == '\r'

/-- ASCII whitespace removed by the forgiving-base64 decode behind `atob`. -/
def isB64Ws (c : Char) : Bool :=
  c == ' ' || c == '\t' || c == '\n' || c == '\r' || c == '\x0c'

def trimLeftChars (cs : List Char) : List Char := cs.dropWhile isTrimWs

def trimRightChars (cs : List Char) : List Char :=
  (cs.reverse.dropWhile isTrimWs).reverse

def trimChars (cs : List Char) : List Char := trimLeftChars (trimRightChars cs)

/-- Model of `s.trim()`. -/
def jsTrim (s : String) : String := String.mk (trimChars s.data)

/-! ## UTF-8 byte codec

`binaryStringToUtf8` in const.js and the percent-encoding loop in
parseWithWebWorker.js both reinterpret the binary string produced by `atob`
as UTF-8 (via `decodeURIComponent` of `%HH` escapes, or `TextDecoder`).
That reinterpretation is modelled by `utf8Decode`; on malformed byte
sequences the percent-decoding path throws (modelled as `none`). -/

/-- Standard UTF-8 encoding of one unicode scalar value. -/
def utf8EncodeChar (c : Char) : List Nat :=
  let n := c.toNat
  if n < 0x80 then [n]
  else if n < 0x800 then [0xC0 + n / 64, 0x80 + n % 64]
  else if n < 0x10000 then [0xE0 + n / 4096, 0x80 + n / 64 % 64, 0x80 + n % 64]
  else [0xF0 + n / 262144, 0x80 + n / 4096 % 64, 0x80 + n / 64 % 64, 0x80 + n % 64]

/-- UTF-8 encoding of a scalar-value sequence. -/
def utf8Encode : List Char → List Nat
  | [] => []
  | c :: cs => utf8EncodeChar c ++ utf8Encode cs

/-- Strict UTF-8 decoding of a byte sequence, fuel-bounded (rejects
truncated sequences, stray continuation bytes, overlong forms, surrogates
and out-of-range scalars, exactly the sequences `decodeURIComponent`
refuses).  One unit of fuel is spent per decoded scalar, and every scalar
consumes at least one byte, so `bs.length` fuel always suffices. -/
def utf8DecodeF : Nat → List Nat → Option (List Char)
  | _, [] => some []
  | 0, _ :: _ => none
  | f + 1, b :: bs =>
    if b < 0x80 then (utf8DecodeF f bs).map (fun cs => Char.ofNat b :: cs)
    else if b < 0xC2 then none
    else if b < 0xE0 then
      match bs with
      | [] => none
      | b1 :: bs1 =>
        if 0x80 ≤ b1 && b1 < 0xC0 then
          (utf8DecodeF f bs1).map (fun cs => Char.ofNat ((b - 0xC0) * 64 + (b1 - 0x80)) :: cs)
        else none
    else if b < 0xF0 then
      match bs with
      | [] => none
      | [_] => none
      | b1 :: b2 :: bs2 =>
        if 0x80 ≤ b1 && b1 < 0xC0 && 0x80 ≤ b2 && b2 < 0xC0 then
          if 0x800 ≤ (b - 0xE0) * 4096 + (b1 - 0x80) * 64 + (b2 - 0x80) &&
              ¬ (0xD800 ≤ (b - 0xE0) * 4096 + (b1 - 0x80) * 64 + (b2 - 0x80) &&
                (b - 0xE0) * 4096 + (b1 - 0x80) * 64 + (b2 - 0x80) ≤ 0xDFFF) then
            (utf8DecodeF f bs2).map
              (fun cs => Char.ofNat ((b - 0xE0) * 4096 + (b1 - 0x80) * 64 + (b2 - 0x80)) :: cs)
          else none
        else none
    else if b < 0xF5 then
      match bs with
      | [] => none
      | [_] => none
      | [_, _] => none
      | b1 :: b2 :: b3 :: bs3 =>
        if 0x80 ≤ b1 && b1 < 0xC0 && 0x80 ≤ b2 && b2 < 0xC0 && 0x80 ≤ b3 && b3 < 0xC0 then
          if 0x10000 ≤ (b - 0xF0) * 262144 + (b1 - 0x80) * 4096 + (b2 - 0x80) * 64 + (b3 - 0x80) &&
              (b - 0xF0) * 262144 + (b1 - 0x80) * 4096 + (b2 - 0x80) * 64 + (b3 - 0x80) <
                0x110000 then
            (utf8DecodeF f bs3).map
              (fun cs => Char.ofNat
                ((b - 0xF0) * 262144 + (b1 - 0x80) * 4096 + (b2 - 0x80) * 64 + (b3 - 0x80)) :: cs)
          else none
        else none
    else none

/-- UTF-8 decoding with sufficient fuel. -/
def utf8Decode (bs : List Nat) : Option (List Char) := utf8DecodeF bs.length bs

theorem char_toNat_valid (c : Char) :
    c.toNat < 0xd800 ∨ (0xdfff < c.toNat ∧ c.toNat < 0x110000) := by
  rcases c.valid with h | h
  · left; simpa [Char.toNat] using h
  · right; simpa [Char.toNat] using h

theorem utf8DecodeF_encodeChar (c : Char) (f : Nat) (bs : List Nat) :
    utf8DecodeF (f + 1) (utf8EncodeChar c ++ bs) =
      (utf8DecodeF f bs).map (fun cs => c :: cs) := by
  have hv := char_toNat_valid c
  have hofn := Char.ofNat_toNat c
  unfold utf8EncodeChar
  by_cases h1 : c.toNat < 0x80
  · simp only [if_pos h1, List.cons_append, List.nil_append]
    rw [utf8DecodeF.eq_def]
    simp only [if_pos h1, hofn]
  · by_cases h2 : c.toNat < 0x800
    · simp only [if_neg h1, if_pos h2, List.cons_append, List.nil_append]
      rw [utf8DecodeF.eq_def]
      have e1 : ¬ (0xC0 + c.toNat / 64 < 0x80) := by omega
      have e2 : ¬ (0xC0 + c.toNat / 64 < 0xC2) := by omega
      have e3 : 0xC0 + c.toNat / 64 < 0xE0 := by omega
      have hn : (0xC0 + c.toNat / 64 - 0xC0) * 64 + (0x80 + c.toNat % 64 - 0x80) = c.toNat := by
        omega
      simp only [if_neg e1, if_neg e2, if_pos e3, hn, hofn]
      split
      · rfl
      · rename_i hc
        exfalso
        simp only [Bool.and_eq_true, decide_eq_true_eq, Bool.and_eq_false_iff,
          decide_eq_false_iff_not, Bool.not_eq_true] at hc
        omega
    · by_cases h3 : c.toNat < 0x10000
      · simp only [if_neg h1, if_neg h2, if_pos h3, List.cons_append, List.nil_append]
        rw [utf8DecodeF.eq_def]
        have e1 : ¬ (0xE0 + c.toNat / 4096 < 0x80) := by omega
        have e2 : ¬ (0xE0 + c.toNat / 4096 < 0xC2) := by omega
        have e3 : ¬ (0xE0 + c.toNat / 4096 < 0xE0) := by omega
        have e4 : 0xE0 + c.toNat / 4096 < 0xF0 := by omega
        have hn : (0xE0 + c.toNat / 4096 - 0xE0) * 4096 + (0x80 + c.toNat / 64 % 64 - 0x80) * 64 +
            (0x80 + c.toNat % 64 - 0x80) = c.toNat := by omega
        simp only [if_neg e1, if_neg e2, if_neg e3, if_pos e4, hn, hofn]
        split
        · split
          · rfl
          · rename_i hc
            exfalso
            simp only [Bool.and_eq_true, decide_eq_true_eq, decide_not, Bool.not_eq_true,
              Bool.and_eq_false_iff, decide_eq_false_iff_not, Bool.not_eq_false,
              Bool.not_eq_true'] at hc
            omega
        · rename_i hc
          exfalso
          simp only [Bool.and_eq_true, decide_eq_true_eq, Bool.and_eq_false_iff,
            decide_eq_false_iff_not, Bool.not_eq_true] at hc
          omega
      · simp only [if_neg h1, if_neg h2, if_neg h3, List.cons_append, List.nil_append]
        rw [utf8DecodeF.eq_def]
        have hlt : c.toNat < 0x110000 := by omega
        have e1 : ¬ (0xF0 + c.toNat / 262144 < 0x80) := by omega
        have e2 : ¬ (0xF0 + c.toNat / 262144 < 0xC2) := by omega
        have e3 : ¬ (0xF0 + c.toNat / 262144 < 0xE0) := by omega
        have e4 : ¬ (0xF0 + c.toNat / 262144 < 0xF0) := by omega
        have e5 : 0xF0 + c.toNat / 262144 < 0xF5 := by omega
        have hn : (0xF0 + c.toNat / 262144 - 0xF0) * 262144 +
            (0x80 + c.toNat / 4096 % 64 - 0x80) * 4096 +
            (0x80 + c.toNat / 64 % 64 - 0x80) * 64 + (0x80 + c.toNat % 64 - 0x80) = c.toNat := by
          omega
        simp only [if_neg e1, if_neg e2, if_neg e3, if_neg e4, if_pos e5, hn, hofn]
        split
        · split
          · rfl
          · rename_i hc
            exfalso
            simp only [Bool.and_eq_true, decide_eq_true_eq, Bool.and_eq_false_iff,
              decide_eq_false_iff_not, Bool.not_eq_true] at hc
            omega
        · rename_i hc
          exfalso
          simp only [Bool.and_eq_true, decide_eq_true_eq, Bool.and_eq_false_iff,
            decide_eq_false_iff_not, Bool.not_eq_true] at hc
          omega

theorem utf8DecodeF_nil (f : Nat) : utf8DecodeF f [] = some [] := by
  cases f <;> rfl

theorem utf8DecodeF_encode_append (cs : List Char) (f : Nat) (bs : List Nat) :
    utf8DecodeF (cs.length + f) (utf8Encode cs ++ bs) =
      (utf8DecodeF f bs).map (fun rest => cs ++ rest) := by
  induction cs generalizing f with
  | nil =>
    simp only [List.length_nil, Nat.zero_add, utf8Encode, List.nil_append]
    cases utf8DecodeF f bs <;> rfl
  | cons c cs ih =>
    have harr : utf8Encode (c :: cs) ++ bs = utf8EncodeChar c ++ (utf8Encode cs ++ bs) := by
      simp [utf8Encode]
    have hlen : (c :: cs).length + f = (cs.length + f) + 1 := by
      simp [List.length_cons]; omega
    rw [harr, hlen, utf8DecodeF_encodeChar, ih]
    cases utf8DecodeF f bs <;> rfl

/-- Freshly encoded text always decodes back to itself. -/
theorem utf8Decode_encode (cs : List Char) : utf8Decode (utf8Encode cs) = some cs := by
  have hlen : cs.length ≤ (utf8Encode cs).length := by
    induction cs with
    | nil => simp [utf8Encode]
    | cons c cs ih =>
      have : 1 ≤ (utf8EncodeChar c).length := by
        unfold utf8EncodeChar
        by_cases h1 : c.toNat < 0x80
        · simp [h1]
        · by_cases h2 : c.toNat < 0x800
          · simp [h1, h2]
          · by_cases h3 : c.toNat < 0x10000 <;> simp [h1, h2, h3]
      simp only [utf8Encode, List.length_append, List.length_cons]
      omega
    -- fuel bs.length = cs.length + extra
  obtain ⟨d, hd⟩ : ∃ d, (utf8Encode cs).length = cs.length + d :=
    ⟨(utf8Encode cs).length - cs.length, by omega⟩
  have := utf8DecodeF_encode_append cs d []
  rw [List.append_nil] at this
  rw [utf8Decode, hd, this, utf8DecodeF_nil]
  simp

theorem utf8EncodeChar_lt256 (c : Char) : ∀ b ∈ utf8EncodeChar c, b < 256 := by
  have hv := char_toNat_valid c
  unfold utf8EncodeChar
  by_cases h1 : c.toNat < 0x80
  · simp [h1]; omega
  · by_cases h2 : c.toNat < 0x800
    · simp [h1, h2]; constructor <;> omega
    · by_cases h3 : c.toNat < 0x10000
      · simp [h1, h2, h3]; refine ⟨by omega, by omega, by omega⟩
      · simp [h1, h2, h3]
        have : c.toNat < 0x110000 := by omega
        refine ⟨by omega, by omega, by omega, by omega⟩

theorem utf8Encode_lt256 (cs : List Char) : ∀ b ∈ utf8Encode cs, b < 256 := by
  induction cs with
  | nil => simp [utf8Encode]
  | cons c cs ih =>
    simp only [utf8Encode, List.mem_append]
    rintro b (h | h)
    · exact utf8EncodeChar_lt256 c b h
    · exact ih b h

/-! ## Base64 codec

`atob` implements the WHATWG forgiving-base64 decode: ASCII whitespace is
removed, up to two trailing padding characters are stripped when the
length is a multiple of four, a remaining length of 1 mod 4 or any
character outside the standard alphabet is an error, and leftover bits of
a final 2- or 3-character group are discarded. -/

/-- Character of the standard base64 alphabet for a sextet. -/
def sextetChar (n : Nat) : Char :=
  if n < 26 then Char.ofNat (65 + n)
  else if n < 52 then Char.ofNat (97 + (n - 26))
  else if n < 62 then Char.ofNat (48 + (n - 52))
  else if n = 62 then '+' else '/'

/-- Position of a character in the standard base64 alphabet. -/
def b64Index (c : Char) : Option Nat :=
  if 'A' ≤ c ∧ c ≤ 'Z' then some (c.toNat - 65)
  else if 'a' ≤ c ∧ c ≤ 'z' then some (26 + (c.toNat - 97))
  else if '0' ≤ c ∧ c ≤ '9' then some (52 + (c.toNat - 48))
  else if c = '+' then some 62
  else if c = '/' then some 63
  else none

/-- Standard base64 encoding without padding characters. -/
def b64EncodeCore : List Nat → List Char
  | [] => []
  | [a] => [sextetChar (a / 4), sextetChar (a % 4 * 16)]
  | [a, b] => [sextetChar (a / 4), sextetChar (a % 4 * 16 + b / 16), sextetChar (b % 16 * 4)]
  | a :: b :: c :: rest =>
    sextetChar (a / 4) :: sextetChar (a % 4 * 16 + b / 16) ::
      sextetChar (b % 16 * 4 + c / 64) :: sextetChar (c % 64) :: b64EncodeCore rest

/-- Standard base64 encoding with `=` padding to a multiple of four. -/
def b64Encode (bs : List Nat) : List Char :=
  b64EncodeCore bs ++
    (if bs.length % 3 = 0 then [] else if bs.length % 3 = 1 then ['=', '='] else ['='])

/-- Base64 decoding of cleaned data (alphabet characters only, final group
of two or three characters allowed, leftover bits discarded). -/
def b64DecodeChars : List Char → Option (List Nat)
  | [] => some []
  | [_] => none
  | [c1, c2] =>
    (b64Index c1).bind fun i1 => (b64Index c2).map fun i2 => [i1 * 4 + i2 / 16]
  | [c1, c2, c3] =>
    (b64Index c1).bind fun i1 => (b64Index c2).bind fun i2 => (b64Index c3).map fun i3 =>
      [i1 * 4 + i2 / 16, i2 % 16 * 16 + i3 / 4]
  | c1 :: c2 :: c3 :: c4 :: rest =>
    (b64Index c1).bind fun i1 => (b64Index c2).bind fun i2 =>
      (b64Index c3).bind fun i3 => (b64Index c4).bind fun i4 =>
        (b64DecodeChars rest).map fun tl =>
          (i1 * 4 + i2 / 16) :: (i2 % 16 * 16 + i3 / 4) :: (i3 % 4 * 64 + i4) :: tl

/-- Padding-stripping step of forgiving-base64 decode: when the length is
a multiple of four, up to two trailing padding characters are removed. -/
def b64StripPad (ds : List Char) : List Char :=
  if ds.length % 4 == 0 then
    if ds.getLast? == some '=' then
      if ds.dropLast.getLast? == some '=' then ds.dropLast.dropLast else ds.dropLast
    else ds
  else ds

/-- Model of the `atob` builtin (forgiving-base64 decode; `none` models the
DOMException it throws on invalid input). -/
def atobModel (s : String) : Option (List Nat) :=
  let ds := s.data.filter (fun c => ! isB64Ws c)
  let es := b64StripPad ds
  if es.length % 4 == 1 then none
  else if es.all (fun c => (b64Index c).isSome) then b64DecodeChars es
  else none

theorem sextetChar_spec : ∀ n, n < 64 →
    b64Index (sextetChar n) = some n ∧ isB64Ws (sextetChar n) = false ∧
    sextetChar n ≠ '=' ∧ sextetChar n ≠ '-' ∧ sextetChar n ≠ '_' := by decide

theorem b64EncodeCore_alpha (bs : List Nat) (h : ∀ b ∈ bs, b < 256) :
    ∀ c ∈ b64EncodeCore bs, ∃ n, n < 64 ∧ c = sextetChar n := by
  induction bs using b64EncodeCore.induct with
  | case1 => intro c hc; simp [b64EncodeCore] at hc
  | case2 a =>
    intro c hc
    have ha : a < 256 := h a (by simp)
    simp only [b64EncodeCore, List.mem_cons, List.not_mem_nil, or_false] at hc
    rcases hc with hc | hc
    · exact ⟨a / 4, by omega, hc⟩
    · exact ⟨a % 4 * 16, by omega, hc⟩
  | case3 a b =>
    intro c hc
    have ha : a < 256 := h a (by simp)
    have hb : b < 256 := h b (by simp)
    simp only [b64EncodeCore, List.mem_cons, List.not_mem_nil, or_false] at hc
    rcases hc with hc | hc | hc
    · exact ⟨a / 4, by omega, hc⟩
    · exact ⟨a % 4 * 16 + b / 16, by omega, hc⟩
    · exact ⟨b % 16 * 4, by omega, hc⟩
  | case4 a b c rest ih =>
    intro x hx
    have ha : a < 256 := h a (by simp)
    have hb : b < 256 := h b (by simp)
    have hc : c < 256 := h c (by simp)
    simp only [b64EncodeCore, List.mem_cons] at hx
    rcases hx with hx | hx | hx | hx | hx
    · exact ⟨a / 4, by omega, hx⟩
    · exact ⟨a % 4 * 16 + b / 16, by omega, hx⟩
    · exact ⟨b % 16 * 4 + c / 64, by omega, hx⟩
    · exact ⟨c % 64, by omega, hx⟩
    · exact ih (fun y hy => h y (by simp [hy])) x hx

theorem b64DecodeChars_encodeCore (bs : List Nat) (h : ∀ b ∈ bs, b < 256) :
    b64DecodeChars (b64EncodeCore bs) = some bs := by
  induction bs using b64EncodeCore.induct with
  | case1 => rfl
  | case2 a =>
    have ha : a < 256 := h a (by simp)
    have h1 := (sextetChar_spec (a / 4) (by omega)).1
    have h2 := (sextetChar_spec (a % 4 * 16) (by omega)).1
    simp only [b64EncodeCore, b64DecodeChars, h1, h2, Option.some_bind, Option.map_some']
    have : a / 4 * 4 + a % 4 * 16 / 16 = a := by omega
    rw [this]
  | case3 a b =>
    have ha : a < 256 := h a (by simp)
    have hb : b < 256 := h b (by simp)
    have h1 := (sextetChar_spec (a / 4) (by omega)).1
    have h2 := (sextetChar_spec (a % 4 * 16 + b / 16) (by omega)).1
    have h3 := (sextetChar_spec (b % 16 * 4) (by omega)).1
    simp only [b64EncodeCore, b64DecodeChars, h1, h2, h3, Option.some_bind, Option.map_some']
    have e1 : a / 4 * 4 + (a % 4 * 16 + b / 16) / 16 = a := by omega
    have e2 : (a % 4 * 16 + b / 16) % 16 * 16 + b % 16 * 4 / 4 = b := by omega
    rw [e1, e2]
  | case4 a b c rest ih =>
    have ha : a < 256 := h a (by simp)
    have hb : b < 256 := h b (by simp)
    have hc : c < 256 := h c (by simp)
    have h1 := (sextetChar_spec (a / 4) (by omega)).1
    have h2 := (sextetChar_spec (a % 4 * 16 + b / 16) (by omega)).1
    have h3 := (sextetChar_spec (b % 16 * 4 + c / 64) (by omega)).1
    have h4 := (sextetChar_spec (c % 64) (by omega)).1
    have ihx := ih (fun y hy => h y (by simp [hy]))
    cases hrest : b64EncodeCore rest with
    | nil =>
      rw [hrest] at ihx
      simp only [b64EncodeCore, hrest, b64DecodeChars, h1, h2, h3, h4, Option.some_bind,
        ihx, Option.map_some']
      have e1 : a / 4 * 4 + (a % 4 * 16 + b / 16) / 16 = a := by omega
      have e2 : (a % 4 * 16 + b / 16) % 16 * 16 + (b % 16 * 4 + c / 64) / 4 = b := by omega
      have e3 : (b % 16 * 4 + c / 64) % 4 * 64 + c % 64 = c := by omega
      rw [e1, e2, e3]
    | cons y ys =>
      rw [hrest] at ihx
      simp only [b64EncodeCore, hrest, b64DecodeChars, h1, h2, h3, h4, Option.some_bind,
        ihx, Option.map_some']
      have e1 : a / 4 * 4 + (a % 4 * 16 + b / 16) / 16 = a := by omega
      have e2 : (a % 4 * 16 + b / 16) % 16 * 16 + (b % 16 * 4 + c / 64) / 4 = b := by omega
      have e3 : (b % 16 * 4 + c / 64) % 4 * 64 + c % 64 = c := by omega
      rw [e1, e2, e3]

theorem b64EncodeCore_length (bs : List Nat) :
    (b64EncodeCore bs).length = (bs.length * 4 + 2) / 3 := by
  induction bs using b64EncodeCore.induct with
  | case1 => simp [b64EncodeCore]
  | case2 a => simp [b64EncodeCore]
  | case3 a b => simp [b64EncodeCore]
  | case4 a b c rest ih =>
    simp only [b64EncodeCore, List.length_cons, ih]
    omega

theorem b64Encode_pad_eq (bs : List Nat) :
    (if bs.length % 3 = 0 then ([] : List Char)
     else if bs.length % 3 = 1 then ['=', '='] else ['=']) =
      (if bs.length % 3 = 0 then ([] : List Char)
       else if bs.length % 3 = 1 then ['=', '='] else ['=']) := rfl

theorem b64Encode_length_mod4 (bs : List Nat) : (b64Encode bs).length % 4 = 0 := by
  have hc := b64EncodeCore_length bs
  unfold b64Encode
  by_cases h0 : bs.length % 3 = 0
  · simp only [if_pos h0, List.append_nil, hc]; omega
  · by_cases h1 : bs.length % 3 = 1
    · simp only [if_neg h0, if_pos h1, List.length_append, hc, List.length_cons,
        List.length_nil]
      omega
    · simp only [if_neg h0, if_neg h1, List.length_append, hc, List.length_cons,
        List.length_nil]
      omega

theorem b64EncodeCore_not_eq_char (bs : List Nat) (h : ∀ b ∈ bs, b < 256) :
    ∀ c ∈ b64EncodeCore bs, c ≠ '=' ∧ c ≠ '-' ∧ c ≠ '_' ∧ isB64Ws c = false ∧
      (b64Index c).isSome := by
  intro c hc
  obtain ⟨n, hn, rfl⟩ := b64EncodeCore_alpha bs h c hc
  obtain ⟨h1, h2, h3, h4, h5⟩ := sextetChar_spec n hn
  exact ⟨h3, h4, h5, h2, by simp [h1]⟩

theorem b64EncodeCore_getLast_ne (bs : List Nat) (h : ∀ b ∈ bs, b < 256) :
    ¬ (b64EncodeCore bs).getLast? = some '=' := by
  intro hcon
  exact ((b64EncodeCore_not_eq_char bs h _ (List.mem_of_mem_getLast? hcon)).1 rfl)

theorem b64StripPad_b64Encode (bs : List Nat) (h : ∀ b ∈ bs, b < 256) :
    b64StripPad (b64Encode bs) = b64EncodeCore bs := by
  have hmod := b64Encode_length_mod4 bs
  have hlast := b64EncodeCore_getLast_ne bs h
  unfold b64StripPad
  rw [if_pos (by simpa using hmod)]
  by_cases h0 : bs.length % 3 = 0
  · have hpad : b64Encode bs = b64EncodeCore bs := by
      unfold b64Encode; rw [if_pos h0, List.append_nil]
    rw [hpad, if_neg (by simpa using hlast)]
  · by_cases h1 : bs.length % 3 = 1
    · have hpad : b64Encode bs = (b64EncodeCore bs ++ ['=']) ++ ['='] := by
        unfold b64Encode; rw [if_neg h0, if_pos h1]; simp
      rw [hpad, if_pos (by simp [List.getLast?_concat]), List.dropLast_concat,
        if_pos (by simp [List.getLast?_concat]), List.dropLast_concat]
    · have hpad : b64Encode bs = b64EncodeCore bs ++ ['='] := by
        unfold b64Encode; rw [if_neg h0, if_neg h1]
      rw [hpad, if_pos (by simp [List.getLast?_concat]), List.dropLast_concat,
        if_neg (by simpa using hlast)]

theorem b64EncodeCore_length_mod4_ne1 (bs : List Nat) :
    (b64EncodeCore bs).length % 4 ≠ 1 := by
  have hc := b64EncodeCore_length bs
  omega

/-- Forgiving-base64 decode inverts base64 encoding of a byte sequence. -/
theorem atobModel_b64Encode (bs : List Nat) (h : ∀ b ∈ bs, b < 256) :
    atobModel (String.mk (b64Encode bs)) = some bs := by
  have hchars : ∀ c ∈ b64Encode bs, isB64Ws c = false := by
    intro c hc
    unfold b64Encode at hc
    rcases List.mem_append.mp hc with hc | hc
    · exact ((b64EncodeCore_not_eq_char bs h c hc).2.2.2).1
    · have hceq : c = '=' := by
        by_cases h0 : bs.length % 3 = 0
        · rw [if_pos h0] at hc; simp at hc
        · by_cases h1 : bs.length % 3 = 1
          · rw [if_neg h0, if_pos h1] at hc
            rcases (by simpa using hc : c = '=' ∨ c = '=') with rfl | rfl <;> rfl
          · rw [if_neg h0, if_neg h1] at hc
            simpa using hc
      subst hceq; rfl
  unfold atobModel
  have hfil : (b64Encode bs).filter (fun c => ! isB64Ws c) = b64Encode bs :=
    List.filter_eq_self.mpr (by intro a ha; simp [hchars a ha])
  simp only [hfil, b64StripPad_b64Encode bs h]
  rw [if_neg (by simpa using b64EncodeCore_length_mod4_ne1 bs)]
  rw [if_pos]
  · exact b64DecodeChars_encodeCore bs h
  · exact List.all_eq_true.mpr (fun a ha => by
      simpa using ((b64EncodeCore_not_eq_char bs h a ha).2.2.2).2)


/-! ## JSON codec

Models of the `JSON.stringify` and `JSON.parse` builtins, restricted to
integer numbers (the payloads the claims exercise never observe fractional
values; `JSON.parse` of a fraction or exponent is outside this model). -/

def digitChar (n : Nat) : Char := Char.ofNat (48 + n)

def hexDigitChar (n : Nat) : Char :=
  if n < 10 then Char.ofNat (48 + n) else Char.ofNat (87 + n)

def isDigitChar (c : Char) : Bool := '0' ≤ c && c ≤ '9'

/-- Decimal digits of a natural number, most significant first. -/
def natDigits (n : Nat) : List Char :=
  if _h : n < 10 then [digitChar n] else natDigits (n / 10) ++ [digitChar (n % 10)]
  termination_by n
  decreasing_by omega

/-- Decimal representation of an integer. -/
def intChars (i : Int) : List Char :=
  if i < 0 then '-' :: natDigits (-i).toNat else natDigits i.toNat

/-- The two-character escapes and `\u00XX` forms emitted by
`JSON.stringify` for strings. -/
def escapeChar (c : Char) : List Char :=
  if c = '"' then ['\\', '"']
  else if c = '\\' then ['\\', '\\']
  else if c = '\x08' then ['\\', 'b']
  else if c = '\t' then ['\\', 't']
  else if c = '\n' then ['\\', 'n']
  else if c = '\x0c' then ['\\', 'f']
  else if c = '\r' then ['\\', 'r']
  else if c.toNat < 0x20 then
    ['\\', 'u', '0', '0', hexDigitChar (c.toNat / 16), hexDigitChar (c.toNat % 16)]
  else [c]

def escapeChars : List Char → List Char
  | [] => []
  | c :: cs => escapeChar c ++ escapeChars cs

mutual

/-- `JSON.stringify`, producing the character list of the JSON text
(`undef` only arises inside arrays, where stringify renders `null`). -/
def jsonStringifyV : JSValue → List Char
  | .undef => ['n', 'u', 'l', 'l']
  | .null => ['n', 'u', 'l', 'l']
  | .bool true => 't' :: ['r', 'u', 'e']
  | .bool false => 'f' :: ['a', 'l', 's', 'e']
  | .num i => intChars i
  | .str s => '"' :: (escapeChars s.data ++ ['"'])
  | .arr xs => '[' :: (jsonStringifyItems xs ++ [']'])
  | .obj fs => '{' :: (jsonStringifyFields fs ++ ['}'])

def jsonStringifyItems : List JSValue → List Char
  | [] => []
  | [v] => jsonStringifyV v
  | v :: w :: vs => jsonStringifyV v ++ ',' :: jsonStringifyItems (w :: vs)

def jsonStringifyFields : List (String × JSValue) → List Char
  | [] => []
  | [(k, v)] => '"' :: (escapeChars k.data ++ '"' :: ':' :: jsonStringifyV v)
  | (k, v) :: p :: fs =>
    ('"' :: (escapeChars k.data ++ '"' :: ':' :: jsonStringifyV v)) ++
      ',' :: jsonStringifyFields (p :: fs)

end

/-- The string handed to the JSON sink: `JSON.stringify` as a `String`. -/
def jsonStringify (v : JSValue) : String := String.mk (jsonStringifyV v)

def keysDistinct : List String → Bool
  | [] => true
  | k :: ks => !(ks.contains k) && keysDistinct ks

mutual

/-- Whether a value is in the image of JSON (no `undefined` anywhere, and
object keys unique, as JavaScript objects force). -/
def goodJson : JSValue → Bool
  | .undef => false
  | .null => true
  | .bool _ => true
  | .num _ => true
  | .str _ => true
  | .arr xs => goodJsonList xs
  | .obj fs => goodJsonFields fs && keysDistinct (fs.map Prod.fst)

def goodJsonList : List JSValue → Bool
  | [] => true
  | v :: vs => goodJson v && goodJsonList vs

def goodJsonFields : List (String × JSValue) → Bool
  | [] => true
  | (_, v) :: fs => goodJson v && goodJsonFields fs

end

/-! ### JSON parsing -/

def skipWs : List Char → List Char
  | [] => []
  | c :: cs => if isJsonWs c then skipWs cs else c :: cs

def hexVal (c : Char) : Option Nat :=
  if '0' ≤ c ∧ c ≤ '9' then some (c.toNat - 48)
  else if 'a' ≤ c ∧ c ≤ 'f' then some (c.toNat - 87)
  else if 'A' ≤ c ∧ c ≤ 'F' then some (c.toNat - 55)
  else none

def unescapeChar (e : Char) : Option Char :=
  if e = '"' then some '"'
  else if e = '\\' then some '\\'
  else if e = '/' then some '/'
  else if e = 'b' then some '\x08'
  else if e = 'f' then some '\x0c'
  else if e = 'n' then some '\n'
  else if e = 'r' then some '\r'
  else if e = 't' then some '\t'
  else none

/-- Body of a JSON string after the opening quote: unescapes up to the
closing quote, returning the decoded characters and the remainder. -/
def parseStringBody : List Char → Option (List Char × List Char)
  | [] => none
  | c :: cs =>
    if c = '"' then some ([], cs)
    else if c = '\\' then
      match cs with
      | [] => none
      | e :: cs2 =>
        if e = 'u' then
          match cs2 with
          | [] => none
          | [_] => none
          | [_, _] => none
          | [_, _, _] => none
          | h1 :: h2 :: h3 :: h4 :: cs3 =>
            (hexVal h1).bind fun v1 => (hexVal h2).bind fun v2 =>
              (hexVal h3).bind fun v3 => (hexVal h4).bind fun v4 =>
                (parseStringBody cs3).map fun pr =>
                  (Char.ofNat (v1 * 4096 + v2 * 256 + v3 * 16 + v4) :: pr.1, pr.2)
        else
          (unescapeChar e).bind fun u =>
            (parseStringBody cs2).map fun pr => (u :: pr.1, pr.2)
    else if c.toNat < 0x20 then none
    else (parseStringBody cs).map fun pr => (c :: pr.1, pr.2)

def headIsDigit : List Char → Bool
  | [] => false
  | c :: _ => isDigitChar c

/-- Digit-run accumulator of the number grammar. -/
def parseDigitsAux (acc : Nat) : List Char → Nat × List Char
  | [] => (acc, [])
  | c :: cs =>
    if isDigitChar c then parseDigitsAux (acc * 10 + (c.toNat - 48)) cs else (acc, c :: cs)

/-- Integer token of the JSON grammar (sign and digits, leading zeros
rejected; fractions and exponents are outside this model). -/
def parseNumToken : List Char → Option (Int × List Char)
  | [] => none
  | c :: cs =>
    if c = '-' then
      match cs with
      | [] => none
      | d :: cs2 =>
        if isDigitChar d then
          if d = '0' && headIsDigit cs2 then none
          else some (-((parseDigitsAux 0 cs).1 : Int), (parseDigitsAux 0 cs).2)
        else none
    else if isDigitChar c then
      if c = '0' && headIsDigit cs then none
      else some (((parseDigitsAux 0 (c :: cs)).1 : Int), (parseDigitsAux 0 (c :: cs)).2)
    else none

/-- Strip an expected literal (used for `true` / `false` / `null`). -/
def stripLit : List Char → List Char → Option (List Char)
  | [], cs => some cs
  | _ :: _, [] => none
  | l :: ls, c :: cs => if c = l then stripLit ls cs else none

mutual

/-- Fuel-bounded recursive-descent JSON value grammar.  One unit of fuel is
spent per `parseV` entry; a fuel budget exceeding the character count of
the parsed text always suffices. -/
def parseV : Nat → List Char → Option (JSValue × List Char)
  | 0, _ => none
  | f + 1, cs =>
    match skipWs cs with
    | [] => none
    | c :: rest =>
      if c = '{' then
        match skipWs rest with
        | [] => none
        | d :: r2 =>
          if d = '}' then some (.obj [], r2)
          else (parseFields f (d :: r2)).map fun pr => (.obj pr.1, pr.2)
      else if c = '[' then
        match skipWs rest with
        | [] => none
        | d :: r2 =>
          if d = ']' then some (.arr [], r2)
          else (parseItems f (d :: r2)).map fun pr => (.arr pr.1, pr.2)
      else if c = '"' then
        (parseStringBody rest).map fun pr => (.str (String.mk pr.1), pr.2)
      else if c = 't' then
        (stripLit ['r', 'u', 'e'] rest).map fun r => (.bool true, r)
      else if c = 'f' then
        (stripLit ['a', 'l', 's', 'e'] rest).map fun r => (.bool false, r)
      else if c = 'n' then
        (stripLit ['u', 'l', 'l'] rest).map fun r => (.null, r)
      else if c = '-' || isDigitChar c then
        (parseNumToken (c :: rest)).map fun pr => (.num pr.1, pr.2)
      else none

/-- One or more comma-separated values, consuming the closing bracket. -/
def parseItems : Nat → List Char → Option (List JSValue × List Char)
  | 0, _ => none
  | f + 1, cs =>
    (parseV f cs).bind fun pr =>
      match skipWs pr.2 with
      | [] => none
      | e :: r4 =>
        if e = ',' then (parseItems f r4).map fun qr => (pr.1 :: qr.1, qr.2)
        else if e = ']' then some ([pr.1], r4)
        else none

/-- One or more comma-separated key-value pairs, consuming the closing
brace. -/
def parseFields : Nat → List Char → Option (List (String × JSValue) × List Char)
  | 0, _ => none
  | f + 1, cs =>
    match skipWs cs with
    | [] => none
    | c :: rest =>
      if c = '"' then
        (parseStringBody rest).bind fun kr =>
          match skipWs kr.2 with
          | [] => none
          | d :: r2 =>
            if d = ':' then
              (parseV f r2).bind fun pr =>
                match skipWs pr.2 with
                | [] => none
                | e :: r4 =>
                  if e = ',' then
                    (parseFields f r4).map fun qr =>
                      ((String.mk kr.1, pr.1) :: qr.1, qr.2)
                  else if e = '}' then some ([(String.mk kr.1, pr.1)], r4)
                  else none
            else none
      else none

end

def jsonTrimChars (cs : List Char) : List Char :=
  ((cs.dropWhile isJsonWs).reverse.dropWhile isJsonWs).reverse

/-- Model of `JSON.parse` (throwing is modelled by `none`): surrounding
JSON whitespace is irrelevant, the whole remaining text must be consumed
by the value grammar. -/
def jsonParse (s : String) : Option JSValue :=
  match parseV (s.data.length + 1) (jsonTrimChars s.data) with
  | some (v, []) => some v
  | _ => none


/-! ### JSON roundtrip lemmas -/

theorem char_toNat_inj (a b : Char) (h : a.toNat = b.toNat) : a = b :=
  Char.ext (UInt32.ext h)

theorem isDigitChar_toNat (c : Char) (h : isDigitChar c = true) :
    48 ≤ c.toNat ∧ c.toNat ≤ 57 := by
  simp only [isDigitChar, Bool.and_eq_true, decide_eq_true_eq] at h
  exact ⟨h.1, h.2⟩

theorem digit_not_special (c : Char) (h : isDigitChar c = true) :
    isJsonWs c = false ∧ c ≠ '{' ∧ c ≠ '[' ∧ c ≠ '"' ∧ c ≠ 't' ∧ c ≠ 'f' ∧ c ≠ 'n' ∧
      c ≠ '-' ∧ c ≠ ']' ∧ c ≠ '}' ∧ c ≠ ',' ∧ c ≠ ':' := by
  obtain ⟨h1, h2⟩ := isDigitChar_toNat c h
  refine ⟨?_, ?_, ?_, ?_, ?_, ?_, ?_, ?_, ?_, ?_, ?_, ?_⟩
  · simp only [isJsonWs, Bool.or_eq_false_iff, beq_eq_false_iff_ne, ne_eq]
    refine ⟨⟨⟨?_, ?_⟩, ?_⟩, ?_⟩ <;> intro hcon <;> subst hcon <;> revert h1 h2 <;> decide
  all_goals intro hcon; subst hcon; revert h1 h2; decide

theorem digitChar_spec : ∀ n, n < 10 →
    isDigitChar (digitChar n) = true ∧ (digitChar n).toNat = 48 + n ∧
      isJsonWs (digitChar n) = false := by decide

theorem hexDigitChar_spec : ∀ n, n < 16 → hexVal (hexDigitChar n) = some n := by decide

theorem natDigits_facts (n : Nat) :
    natDigits n ≠ [] ∧ (∀ c ∈ natDigits n, isDigitChar c = true) ∧
      (1 ≤ n → ¬ (natDigits n).head? = some '0') := by
  induction n using natDigits.induct with
  | case1 n hlt =>
    rw [natDigits, dif_pos hlt]
    obtain ⟨hd, ht, _⟩ := digitChar_spec n hlt
    refine ⟨by simp, by simpa using hd, ?_⟩
    intro hn hcon
    simp only [List.head?_cons, Option.some.injEq] at hcon
    have : (digitChar n).toNat = ('0' : Char).toNat := by rw [hcon]
    rw [ht, show ('0' : Char).toNat = 48 from rfl] at this
    omega
  | case2 n hge ih =>
    rw [natDigits, dif_neg hge]
    obtain ⟨ih1, ih2, ih3⟩ := ih
    have hmod := digitChar_spec (n % 10) (by omega)
    refine ⟨by simp [ih1], ?_, ?_⟩
    · intro c hc
      rcases List.mem_append.mp hc with hc | hc
      · exact ih2 c hc
      · simp only [List.mem_singleton] at hc
        subst hc
        exact hmod.1
    · intro _
      rw [List.head?_append_of_ne_nil _ ih1]
      exact ih3 (by omega)

theorem pow_succ_helper (p n acc : Nat) :
    (acc * p + n / 10) * 10 + n % 10 = acc * (p * 10) + n := by
  have := Nat.div_add_mod n 10
  ring_nf
  omega

theorem parseDigitsAux_natDigits (n : Nat) :
    ∀ acc rest, parseDigitsAux acc (natDigits n ++ rest) =
      parseDigitsAux (acc * 10 ^ (natDigits n).length + n) rest := by
  induction n using natDigits.induct with
  | case1 n hlt =>
    intro acc rest
    rw [natDigits, dif_pos hlt]
    obtain ⟨hd, ht, _⟩ := digitChar_spec n hlt
    simp only [List.cons_append, List.nil_append, parseDigitsAux, hd, if_pos, ht,
      List.length_cons, List.length_nil, pow_one]
    have : 48 + n - 48 = n := by omega
    rw [this]
    simp
  | case2 n hge ih =>
    intro acc rest
    rw [natDigits, dif_neg hge]
    obtain ⟨hd, ht, _⟩ := digitChar_spec (n % 10) (by omega)
    rw [List.append_assoc, ih]
    simp only [List.cons_append, List.nil_append, parseDigitsAux, hd, if_pos, ht,
      List.length_append, List.length_cons, List.length_nil]
    have h1 : 48 + n % 10 - 48 = n % 10 := by omega
    rw [h1]
    have h2 : (acc * 10 ^ (natDigits (n / 10)).length + n / 10) * 10 + n % 10 =
        acc * 10 ^ ((natDigits (n / 10)).length + 1) + n := by
      rw [pow_succ]
      exact pow_succ_helper (10 ^ (natDigits (n / 10)).length) n acc
    rw [h2]
    simp

theorem parseDigitsAux_stop (acc : Nat) (rest : List Char)
    (h : headIsDigit rest = false) : parseDigitsAux acc rest = (acc, rest) := by
  cases rest with
  | nil => rfl
  | cons c cs =>
    simp only [headIsDigit] at h
    simp [parseDigitsAux, h]

theorem parseNumToken_natDigits (n : Nat) (rest : List Char)
    (hrest : headIsDigit rest = false) :
    parseNumToken (natDigits n ++ rest) = some ((n : Int), rest) := by
  obtain ⟨hne, hdigs, hhead⟩ := natDigits_facts n
  cases hn : natDigits n with
  | nil => exact absurd hn hne
  | cons c tl =>
    have hcd : isDigitChar c = true := hdigs c (by rw [hn]; simp)
    obtain ⟨hws, hbrace, hbrack, hquote, hlt', hlf', hln', hdash, hrb, hrbc, hcomma⟩ :=
      digit_not_special c hcd
    simp only [hn, List.cons_append, parseNumToken]
    rw [if_neg hdash, if_pos hcd]
    have hzero : (c = '0' && headIsDigit (tl ++ rest)) = false := by
      by_cases hn10 : n < 10
      · have : natDigits n = [digitChar n] := by rw [natDigits, dif_pos hn10]
        rw [hn] at this
        injection this with e1 e2
        rw [e2, List.nil_append]
        simp [hrest]
      · have hc0 : ¬ c = '0' := by
          intro hcon
          apply hhead (by omega)
          rw [hn, hcon, List.head?_cons]
        simp [hc0]
    rw [if_neg (by simp [hzero])]
    have := parseDigitsAux_natDigits n 0 rest
    rw [hn] at this
    simp only [List.cons_append] at this
    rw [show (0 : Nat) * 10 ^ (c :: tl).length + n = n by omega] at this
    rw [this, parseDigitsAux_stop n rest hrest]


theorem parseNumToken_intChars (i : Int) (rest : List Char)
    (hrest : headIsDigit rest = false) :
    parseNumToken (intChars i ++ rest) = some (i, rest) := by
  unfold intChars
  by_cases hneg : i < 0
  · rw [if_pos hneg]
    have hm : 1 ≤ (-i).toNat := by omega
    obtain ⟨hne, hdigs, hhead⟩ := natDigits_facts (-i).toNat
    cases hn : natDigits (-i).toNat with
    | nil => exact absurd hn hne
    | cons c tl =>
      have hcd : isDigitChar c = true := hdigs c (by rw [hn]; simp)
      have hc0 : ¬ c = '0' := by
        intro hcon
        apply hhead hm
        rw [hn, hcon, List.head?_cons]
      rw [List.cons_append, parseNumToken.eq_def]
      simp only [hn, List.cons_append]
      rw [if_true, if_pos hcd, if_neg (by simp [hc0])]
      have haux := parseDigitsAux_natDigits (-i).toNat 0 rest
      rw [hn] at haux
      simp only [List.cons_append] at haux
      rw [show (0 : Nat) * 10 ^ (c :: tl).length + (-i).toNat = (-i).toNat by omega] at haux
      rw [haux, parseDigitsAux_stop _ rest hrest]
      have : -(((-i).toNat : Int)) = i := by omega
      rw [this]
  · rw [if_neg hneg]
    rw [parseNumToken_natDigits i.toNat rest hrest]
    have : ((i.toNat : Int)) = i := Int.toNat_of_nonneg (by omega)
    rw [this]

theorem psb_quote (rest : List Char) : parseStringBody ('"' :: rest) = some ([], rest) := by
  rw [parseStringBody.eq_def]; simp

theorem psb_backslash (e : Char) (he : ¬ e = 'u') (tl : List Char) :
    parseStringBody ('\\' :: e :: tl) =
      (unescapeChar e).bind fun u =>
        (parseStringBody tl).map fun pr => (u :: pr.1, pr.2) := by
  rw [parseStringBody.eq_def]
  simp only []
  rw [if_neg (by decide), if_true, if_neg he]

theorem psb_unicode (a b cc d : Char) (tl : List Char) :
    parseStringBody ('\\' :: 'u' :: a :: b :: cc :: d :: tl) =
      (hexVal a).bind fun v1 => (hexVal b).bind fun v2 =>
        (hexVal cc).bind fun v3 => (hexVal d).bind fun v4 =>
          (parseStringBody tl).map fun pr =>
            (Char.ofNat (v1 * 4096 + v2 * 256 + v3 * 16 + v4) :: pr.1, pr.2) := by
  rw [parseStringBody.eq_def]
  simp only []
  rw [if_neg (by decide), if_true, if_true]

theorem psb_regular (c : Char) (h1 : ¬ c = '"') (h2 : ¬ c = '\\')
    (h3 : ¬ c.toNat < 0x20) (tl : List Char) :
    parseStringBody (c :: tl) =
      (parseStringBody tl).map fun pr => (c :: pr.1, pr.2) := by
  rw [parseStringBody.eq_def]
  simp only []
  rw [if_neg h1, if_neg h2, if_neg h3]

theorem parseStringBody_escape (cs : List Char) (rest : List Char) :
    parseStringBody (escapeChars cs ++ '"' :: rest) = some (cs, rest) := by
  induction cs with
  | nil => simpa [escapeChars] using psb_quote rest
  | cons c cs ih =>
    have hofn := Char.ofNat_toNat c
    rw [escapeChars, List.append_assoc]
    unfold escapeChar
    by_cases h1 : c = '"'
    · subst h1
      rw [if_pos rfl]
      simp only [List.cons_append, List.nil_append]
      rw [psb_backslash _ (by decide)]
      simp [unescapeChar, ih]
    · rw [if_neg h1]
      by_cases h2 : c = '\\'
      · subst h2
        rw [if_pos rfl]
        simp only [List.cons_append, List.nil_append]
        rw [psb_backslash _ (by decide)]
        simp [unescapeChar, ih]
      · rw [if_neg h2]
        by_cases h3 : c = '\x08'
        · subst h3
          rw [if_pos rfl]
          simp only [List.cons_append, List.nil_append]
          rw [psb_backslash _ (by decide)]
          simp [unescapeChar, ih]
        · rw [if_neg h3]
          by_cases h4 : c = '\t'
          · subst h4
            rw [if_pos rfl]
            simp only [List.cons_append, List.nil_append]
            rw [psb_backslash _ (by decide)]
            simp [unescapeChar, ih]
          · rw [if_neg h4]
            by_cases h5 : c = '\n'
            · subst h5
              rw [if_pos rfl]
              simp only [List.cons_append, List.nil_append]
              rw [psb_backslash _ (by decide)]
              simp [unescapeChar, ih]
            · rw [if_neg h5]
              by_cases h6 : c = '\x0c'
              · subst h6
                rw [if_pos rfl]
                simp only [List.cons_append, List.nil_append]
                rw [psb_backslash _ (by decide)]
                simp [unescapeChar, ih]
              · rw [if_neg h6]
                by_cases h7 : c = '\r'
                · subst h7
                  rw [if_pos rfl]
                  simp only [List.cons_append, List.nil_append]
                  rw [psb_backslash _ (by decide)]
                  simp [unescapeChar, ih]
                · rw [if_neg h7]
                  by_cases h8 : c.toNat < 0x20
                  · rw [if_pos h8]
                    simp only [List.cons_append, List.nil_append]
                    rw [psb_unicode]
                    have hv1 : hexVal '0' = some 0 := by decide
                    have hv2 := hexDigitChar_spec (c.toNat / 16) (by omega)
                    have hv3 := hexDigitChar_spec (c.toNat % 16) (by omega)
                    simp only [hv1, hv2, hv3, Option.some_bind, ih, Option.map_some']
                    have he : 0 * 4096 + 0 * 256 + c.toNat / 16 * 16 + c.toNat % 16 =
                        c.toNat := by omega
                    rw [he, hofn]
                  · rw [if_neg h8]
                    simp only [List.cons_append, List.nil_append]
                    rw [psb_regular c h1 h2 h8]
                    simp only [ih, Option.map_some']


theorem skipWs_cons_not (c : Char) (tl : List Char) (h : isJsonWs c = false) :
    skipWs (c :: tl) = c :: tl := by
  rw [skipWs.eq_def]
  simp [h]

theorem parseV_succ (f : Nat) (c : Char) (tl : List Char) (hws : isJsonWs c = false) :
    parseV (f + 1) (c :: tl) =
      (if c = '{' then
        match skipWs tl with
        | [] => none
        | d :: r2 =>
          if d = '}' then some (.obj [], r2)
          else (parseFields f (d :: r2)).map fun pr => (.obj pr.1, pr.2)
      else if c = '[' then
        match skipWs tl with
        | [] => none
        | d :: r2 =>
          if d = ']' then some (.arr [], r2)
          else (parseItems f (d :: r2)).map fun pr => (.arr pr.1, pr.2)
      else if c = '"' then
        (parseStringBody tl).map fun pr => (.str (String.mk pr.1), pr.2)
      else if c = 't' then
        (stripLit ['r', 'u', 'e'] tl).map fun r => (.bool true, r)
      else if c = 'f' then
        (stripLit ['a', 'l', 's', 'e'] tl).map fun r => (.bool false, r)
      else if c = 'n' then
        (stripLit ['u', 'l', 'l'] tl).map fun r => (.null, r)
      else if c = '-' || isDigitChar c then
        (parseNumToken (c :: tl)).map fun pr => (.num pr.1, pr.2)
      else none) := by
  rw [parseV.eq_def]
  simp only []
  rw [skipWs_cons_not c tl hws]

theorem parseItems_succ (f : Nat) (cs : List Char) :
    parseItems (f + 1) cs =
      ((parseV f cs).bind fun pr =>
        match skipWs pr.2 with
        | [] => none
        | e :: r4 =>
          if e = ',' then (parseItems f r4).map fun qr => (pr.1 :: qr.1, qr.2)
          else if e = ']' then some ([pr.1], r4)
          else none) := by
  rw [parseItems.eq_def]

theorem parseFields_succ (f : Nat) (cs : List Char) :
    parseFields (f + 1) cs =
      (match skipWs cs with
      | [] => none
      | c :: rest =>
        if c = '"' then
          (parseStringBody rest).bind fun kr =>
            match skipWs kr.2 with
            | [] => none
            | d :: r2 =>
              if d = ':' then
                (parseV f r2).bind fun pr =>
                  match skipWs pr.2 with
                  | [] => none
                  | e :: r4 =>
                    if e = ',' then
                      (parseFields f r4).map fun qr =>
                        ((String.mk kr.1, pr.1) :: qr.1, qr.2)
                    else if e = '}' then some ([(String.mk kr.1, pr.1)], r4)
                    else none
              else none
        else none) := by
  rw [parseFields.eq_def]


/-- Condition on the text following a serialized value inside a larger
JSON text: nothing, or a separator / closer. -/
def restOk : List Char → Prop
  | [] => True
  | c :: _ => c = ',' ∨ c = ']' ∨ c = '}'

theorem restOk_headIsDigit (rest : List Char) (h : restOk rest) :
    headIsDigit rest = false := by
  cases rest with
  | nil => rfl
  | cons c cs =>
    rcases h with rfl | rfl | rfl <;> rfl

theorem jsonStringifyV_head (v : JSValue) :
    ∃ c tl, jsonStringifyV v = c :: tl ∧ isJsonWs c = false ∧ c ≠ ']' ∧ c ≠ '}' ∧
      c ≠ ',' ∧ c ≠ ':' := by
  cases v with
  | undef => exact ⟨'n', _, by rw [jsonStringifyV], by decide, by decide, by decide,
      by decide, by decide⟩
  | null => exact ⟨'n', _, by rw [jsonStringifyV], by decide, by decide, by decide,
      by decide, by decide⟩
  | bool b =>
    cases b
    · exact ⟨'f', _, by rw [jsonStringifyV], by decide, by decide, by decide,
        by decide, by decide⟩
    · exact ⟨'t', _, by rw [jsonStringifyV], by decide, by decide, by decide,
        by decide, by decide⟩
  | num i =>
    rw [jsonStringifyV]
    unfold intChars
    by_cases hneg : i < 0
    · exact ⟨'-', _, by rw [if_pos hneg], by decide, by decide, by decide,
        by decide, by decide⟩
    · rw [if_neg hneg]
      obtain ⟨hne, hdigs, _⟩ := natDigits_facts i.toNat
      cases hn : natDigits i.toNat with
      | nil => exact absurd hn hne
      | cons c tl =>
        have hcd : isDigitChar c = true := hdigs c (by rw [hn]; simp)
        obtain ⟨hws, _, _, _, _, _, _, _, hrb, hrbc, hcm, hcl⟩ := digit_not_special c hcd
        exact ⟨c, tl, rfl, hws, hrb, hrbc, hcm, hcl⟩
  | str s =>
    exact ⟨'"', _, by rw [jsonStringifyV], by decide, by decide, by decide,
      by decide, by decide⟩
  | arr xs =>
    exact ⟨'[', _, by rw [jsonStringifyV], by decide, by decide, by decide,
      by decide, by decide⟩
  | obj fs =>
    exact ⟨'{', _, by rw [jsonStringifyV], by decide, by decide, by decide,
      by decide, by decide⟩

theorem jsonStringifyV_length_pos (v : JSValue) : 1 ≤ (jsonStringifyV v).length := by
  obtain ⟨c, tl, he, _⟩ := jsonStringifyV_head v
  rw [he]
  simp

theorem jsonStringifyFields_head (p : String × JSValue) (fs : List (String × JSValue)) :
    ∃ tl, jsonStringifyFields (p :: fs) = '"' :: tl := by
  obtain ⟨k, v⟩ := p
  cases fs with
  | nil => exact ⟨_, by rw [jsonStringifyFields]⟩
  | cons q fs' => exact ⟨_, by rw [jsonStringifyFields, List.cons_append]⟩

theorem jsonStringifyItems_cons_eq (v : JSValue) (vs : List JSValue) :
    ∃ x, jsonStringifyItems (v :: vs) = jsonStringifyV v ++ x := by
  cases vs with
  | nil => exact ⟨[], by rw [jsonStringifyItems, List.append_nil]⟩
  | cons w vs' => exact ⟨_, by rw [jsonStringifyItems]⟩

theorem parse_stringify_main (n : Nat) :
    (∀ v : JSValue, sizeOf v ≤ n → goodJson v = true → ∀ f rest,
      (jsonStringifyV v).length < f → restOk rest →
        parseV f (jsonStringifyV v ++ rest) = some (v, rest)) ∧
    (∀ vs : List JSValue, sizeOf vs ≤ n → vs ≠ [] → goodJsonList vs = true → ∀ f rest,
      (jsonStringifyItems vs).length + 1 < f →
        parseItems f (jsonStringifyItems vs ++ ']' :: rest) = some (vs, rest)) ∧
    (∀ fs : List (String × JSValue), sizeOf fs ≤ n → fs ≠ [] → goodJsonFields fs = true →
      ∀ f rest, (jsonStringifyFields fs).length + 1 < f →
        parseFields f (jsonStringifyFields fs ++ '}' :: rest) = some (fs, rest)) := by
  induction n using Nat.strong_induction_on with
  | _ n ih =>
    refine ⟨?_, ?_, ?_⟩
    · intro v hsz hv f rest hf hrest
      obtain ⟨f', rfl⟩ : ∃ f', f = f' + 1 :=
        ⟨f - 1, by have := jsonStringifyV_length_pos v; omega⟩
      cases v with
      | undef => simp [goodJson] at hv
      | null =>
        rw [show jsonStringifyV .null = ['n', 'u', 'l', 'l'] from by rw [jsonStringifyV]]
        rw [show (['n', 'u', 'l', 'l'] : List Char) ++ rest = 'n' :: ('u' :: 'l' :: 'l' :: rest)
          from rfl]
        rw [parseV_succ f' 'n' _ (by decide)]
        rw [if_neg (by decide), if_neg (by decide), if_neg (by decide), if_neg (by decide),
          if_neg (by decide), if_pos rfl]
        simp [stripLit]
      | bool b =>
        cases b
        · rw [show jsonStringifyV (.bool false) = ['f', 'a', 'l', 's', 'e'] from by
            rw [jsonStringifyV]]
          rw [show (['f', 'a', 'l', 's', 'e'] : List Char) ++ rest =
            'f' :: ('a' :: 'l' :: 's' :: 'e' :: rest) from rfl]
          rw [parseV_succ f' 'f' _ (by decide)]
          rw [if_neg (by decide), if_neg (by decide), if_neg (by decide), if_neg (by decide),
            if_pos rfl]
          simp [stripLit]
        · rw [show jsonStringifyV (.bool true) = ['t', 'r', 'u', 'e'] from by
            rw [jsonStringifyV]]
          rw [show (['t', 'r', 'u', 'e'] : List Char) ++ rest =
            't' :: ('r' :: 'u' :: 'e' :: rest) from rfl]
          rw [parseV_succ f' 't' _ (by decide)]
          rw [if_neg (by decide), if_neg (by decide), if_neg (by decide), if_pos rfl]
          simp [stripLit]
      | num i =>
        have hnum := parseNumToken_intChars i rest (restOk_headIsDigit rest hrest)
        rw [show jsonStringifyV (.num i) = intChars i from by rw [jsonStringifyV]] at hf ⊢
        by_cases hneg : i < 0
        · have hic : intChars i = '-' :: natDigits (-i).toNat := by rw [intChars, if_pos hneg]
          rw [hic, List.cons_append, parseV_succ f' '-' _ (by decide)]
          rw [if_neg (by decide), if_neg (by decide), if_neg (by decide), if_neg (by decide),
            if_neg (by decide), if_neg (by decide), if_pos (by decide)]
          rw [show '-' :: (natDigits (-i).toNat ++ rest) = intChars i ++ rest from by
            rw [hic, List.cons_append]]
          rw [hnum]
          rfl
        · have hic : intChars i = natDigits i.toNat := by rw [intChars, if_neg hneg]
          obtain ⟨hne, hdigs, _⟩ := natDigits_facts i.toNat
          cases hn : natDigits i.toNat with
          | nil => exact absurd hn hne
          | cons c tl =>
            have hcd : isDigitChar c = true := hdigs c (by rw [hn]; simp)
            obtain ⟨hws, hbc, hbk, hqt, hlt', hlf', hln', hdash, _, _, _, _⟩ :=
              digit_not_special c hcd
            rw [hic, hn, List.cons_append, parseV_succ f' c _ hws]
            rw [if_neg hbc, if_neg hbk, if_neg hqt, if_neg hlt', if_neg hlf', if_neg hln',
              if_pos (by simp [hcd])]
            rw [show c :: (tl ++ rest) = intChars i ++ rest from by
              rw [hic, hn, List.cons_append]]
            rw [hnum]
            rfl
      | str s =>
        rw [show jsonStringifyV (.str s) = '"' :: (escapeChars s.data ++ ['"']) from by
          rw [jsonStringifyV]]
        rw [List.cons_append, parseV_succ f' '"' _ (by decide)]
        rw [if_neg (by decide), if_neg (by decide), if_pos rfl]
        rw [List.append_assoc, show (['"'] : List Char) ++ rest = '"' :: rest from rfl]
        rw [parseStringBody_escape]
        rfl
      | arr xs =>
        cases xs with
        | nil =>
          rw [show jsonStringifyV (.arr []) = ['[', ']'] from by
            rw [jsonStringifyV, jsonStringifyItems]; rfl]
          rw [show (['[', ']'] : List Char) ++ rest = '[' :: (']' :: rest) from rfl]
          rw [parseV_succ f' '[' _ (by decide)]
          rw [if_neg (by decide), if_pos rfl]
          rw [skipWs_cons_not ']' rest (by decide)]
          simp only []
          rw [if_true]
        | cons w ws =>
          have hgl : goodJsonList (w :: ws) = true := by rw [goodJson] at hv; exact hv
          rw [show jsonStringifyV (.arr (w :: ws)) =
            '[' :: (jsonStringifyItems (w :: ws) ++ [']']) from by rw [jsonStringifyV]] at hf ⊢
          obtain ⟨x, hx⟩ := jsonStringifyItems_cons_eq w ws
          obtain ⟨c0, tl0, hv0, hws0, hrb0, _, _, _⟩ := jsonStringifyV_head w
          have harr : ('[' :: (jsonStringifyItems (w :: ws) ++ [']'])) ++ rest =
              '[' :: (jsonStringifyItems (w :: ws) ++ (']' :: rest)) := by
            simp [List.append_assoc]
          rw [harr, parseV_succ f' '[' _ (by decide)]
          rw [if_neg (by decide), if_pos rfl]
          have hshape : jsonStringifyItems (w :: ws) ++ (']' :: rest) =
              c0 :: (tl0 ++ x ++ (']' :: rest)) := by
            rw [hx, hv0]
            simp [List.append_assoc]
          rw [hshape, skipWs_cons_not c0 _ hws0]
          simp only []
          rw [if_neg hrb0, ← hshape]
          have hpi := (ih (sizeOf (w :: ws)) (by simp at hsz ⊢; omega)).2.1 (w :: ws) le_rfl
            (by simp) hgl
          rw [hpi f' rest
            (by simp only [List.length_cons, List.length_append, List.length_nil] at hf; omega)]
          rfl
      | obj fs =>
        cases fs with
        | nil =>
          rw [show jsonStringifyV (.obj []) = ['{', '}'] from by
            rw [jsonStringifyV, jsonStringifyFields]; rfl]
          rw [show (['{', '}'] : List Char) ++ rest = '{' :: ('}' :: rest) from rfl]
          rw [parseV_succ f' '{' _ (by decide)]
          rw [if_pos rfl]
          rw [skipWs_cons_not '}' rest (by decide)]
          simp only []
          rw [if_true]
        | cons p fs' =>
          have hgf : goodJsonFields (p :: fs') = true := by
            rw [goodJson, Bool.and_eq_true] at hv
            exact hv.1
          rw [show jsonStringifyV (.obj (p :: fs')) =
            '{' :: (jsonStringifyFields (p :: fs') ++ ['}']) from by rw [jsonStringifyV]] at hf ⊢
          obtain ⟨tlf, htlf⟩ := jsonStringifyFields_head p fs'
          have hobj : ('{' :: (jsonStringifyFields (p :: fs') ++ ['}'])) ++ rest =
              '{' :: (jsonStringifyFields (p :: fs') ++ ('}' :: rest)) := by
            simp [List.append_assoc]
          rw [hobj, parseV_succ f' '{' _ (by decide)]
          rw [if_pos rfl]
          have hshape : jsonStringifyFields (p :: fs') ++ ('}' :: rest) =
              '"' :: (tlf ++ ('}' :: rest)) := by
            rw [htlf]
            simp [List.append_assoc]
          rw [hshape, skipWs_cons_not '"' _ (by decide)]
          simp only []
          rw [if_neg (by decide), ← hshape]
          have hpf := (ih (sizeOf (p :: fs')) (by simp at hsz ⊢; omega)).2.2 (p :: fs') le_rfl
            (by simp) hgf
          rw [hpf f' rest
            (by simp only [List.length_cons, List.length_append, List.length_nil] at hf; omega)]
          rfl
    · intro vs hsz hne hv f rest hf
      obtain ⟨f', rfl⟩ : ∃ f', f = f' + 1 := ⟨f - 1, by omega⟩
      cases vs with
      | nil => exact absurd rfl hne
      | cons v vs' =>
        have hgv : goodJson v = true ∧ goodJsonList vs' = true := by
          rw [goodJsonList, Bool.and_eq_true] at hv
          exact hv
        rw [parseItems_succ]
        cases vs' with
        | nil =>
          rw [show jsonStringifyItems [v] = jsonStringifyV v from by
            rw [jsonStringifyItems]] at hf ⊢
          have hpv := (ih (sizeOf v) (by simp at hsz; omega)).1 v le_rfl hgv.1
          rw [hpv f' (']' :: rest) (by omega) (by exact Or.inr (Or.inl rfl))]
          simp only [Option.some_bind]
          rw [skipWs_cons_not ']' rest (by decide)]
          rfl
        | cons w vs'' =>
          rw [show jsonStringifyItems (v :: w :: vs'') =
            jsonStringifyV v ++ ',' :: jsonStringifyItems (w :: vs'') from by
            rw [jsonStringifyItems]] at hf ⊢
          have hlv := jsonStringifyV_length_pos v
          have hassoc : (jsonStringifyV v ++ ',' :: jsonStringifyItems (w :: vs'')) ++
              ']' :: rest =
              jsonStringifyV v ++ (',' :: (jsonStringifyItems (w :: vs'') ++ ']' :: rest)) := by
            simp [List.append_assoc]
          rw [hassoc]
          have hflen : (jsonStringifyV v ++ ',' :: jsonStringifyItems (w :: vs'')).length =
              (jsonStringifyV v).length + 1 + (jsonStringifyItems (w :: vs'')).length := by
            simp only [List.length_append, List.length_cons]
            omega
          rw [hflen] at hf
          have hpv := (ih (sizeOf v) (by simp at hsz; omega)).1 v le_rfl hgv.1
          rw [hpv f' _ (by omega) (by exact Or.inl rfl)]
          simp only [Option.some_bind]
          rw [skipWs_cons_not ',' _ (by decide)]
          show Option.map (fun qr => (v :: qr.1, qr.2))
            (parseItems f' (jsonStringifyItems (w :: vs'') ++ ']' :: rest)) =
            some (v :: w :: vs'', rest)
          have hpi := (ih (sizeOf (w :: vs'')) (by simp at hsz ⊢; omega)).2.1 (w :: vs'') le_rfl
            (by simp) hgv.2
          rw [hpi f' rest (by omega)]
          rfl
    · intro fs hsz hne hv f rest hf
      obtain ⟨f', rfl⟩ : ∃ f', f = f' + 1 := ⟨f - 1, by omega⟩
      cases fs with
      | nil => exact absurd rfl hne
      | cons p fs' =>
        obtain ⟨k, v⟩ := p
        have hgv : goodJson v = true ∧ goodJsonFields fs' = true := by
          rw [goodJsonFields, Bool.and_eq_true] at hv
          exact hv
        rw [parseFields_succ]
        cases fs' with
        | nil =>
          rw [show jsonStringifyFields [(k, v)] =
            '"' :: (escapeChars k.data ++ '"' :: ':' :: jsonStringifyV v) from by
            rw [jsonStringifyFields]] at hf ⊢
          rw [List.cons_append, skipWs_cons_not '"' _ (by decide)]
          simp only []
          rw [if_true]
          have hassoc : (escapeChars k.data ++ '"' :: ':' :: jsonStringifyV v) ++ '}' :: rest =
              escapeChars k.data ++ '"' :: (':' :: (jsonStringifyV v ++ '}' :: rest)) := by
            simp [List.append_assoc]
          rw [hassoc, parseStringBody_escape]
          simp only [Option.some_bind]
          rw [skipWs_cons_not ':' _ (by decide)]
          show ((parseV f' (jsonStringifyV v ++ '}' :: rest)).bind fun pr =>
              match skipWs pr.2 with
              | [] => none
              | e :: r4 =>
                if e = ',' then
                  (parseFields f' r4).map fun qr => ((String.mk k.data, pr.1) :: qr.1, qr.2)
                else if e = '}' then some ([(String.mk k.data, pr.1)], r4)
                else none) = some ([(k, v)], rest)
          have hpv := (ih (sizeOf v) (by simp at hsz; omega)).1 v le_rfl hgv.1
          rw [hpv f' ('}' :: rest)
            (by simp only [List.length_cons, List.length_append] at hf; omega)
            (by exact Or.inr (Or.inr rfl))]
          simp only [Option.some_bind]
          rw [skipWs_cons_not '}' rest (by decide)]
          rfl
        | cons q fs'' =>
          rw [show jsonStringifyFields ((k, v) :: q :: fs'') =
            ('"' :: (escapeChars k.data ++ '"' :: ':' :: jsonStringifyV v)) ++
              ',' :: jsonStringifyFields (q :: fs'') from by
            rw [jsonStringifyFields]] at hf ⊢
          have hlv := jsonStringifyV_length_pos v
          have hassoc : (('"' :: (escapeChars k.data ++ '"' :: ':' :: jsonStringifyV v)) ++
              ',' :: jsonStringifyFields (q :: fs'')) ++ '}' :: rest =
              '"' :: (escapeChars k.data ++ '"' :: (':' :: (jsonStringifyV v ++
                (',' :: (jsonStringifyFields (q :: fs'') ++ '}' :: rest))))) := by
            simp [List.append_assoc]
          rw [hassoc, skipWs_cons_not '"' _ (by decide)]
          simp only []
          rw [if_true]
          rw [parseStringBody_escape]
          simp only [Option.some_bind]
          rw [skipWs_cons_not ':' _ (by decide)]
          show ((parseV f' (jsonStringifyV v ++
              (',' :: (jsonStringifyFields (q :: fs'') ++ '}' :: rest)))).bind fun pr =>
              match skipWs pr.2 with
              | [] => none
              | e :: r4 =>
                if e = ',' then
                  (parseFields f' r4).map fun qr => ((String.mk k.data, pr.1) :: qr.1, qr.2)
                else if e = '}' then some ([(String.mk k.data, pr.1)], r4)
                else none) = some ((k, v) :: q :: fs'', rest)
          have hflen : (('"' :: (escapeChars k.data ++ '"' :: ':' :: jsonStringifyV v)) ++
              ',' :: jsonStringifyFields (q :: fs'')).length =
              (escapeChars k.data).length + 3 + (jsonStringifyV v).length + 1 +
                (jsonStringifyFields (q :: fs'')).length := by
            simp only [List.length_append, List.length_cons]
            omega
          rw [hflen] at hf
          have hpv := (ih (sizeOf v) (by simp at hsz; omega)).1 v le_rfl hgv.1
          rw [hpv f' _ (by omega) (by exact Or.inl rfl)]
          simp only [Option.some_bind]
          rw [skipWs_cons_not ',' _ (by decide)]
          show Option.map (fun qr => ((String.mk k.data, v) :: qr.1, qr.2))
            (parseFields f' (jsonStringifyFields (q :: fs'') ++ '}' :: rest)) =
            some ((k, v) :: q :: fs'', rest)
          have hpf := (ih (sizeOf (q :: fs'')) (by simp at hsz ⊢; omega)).2.2 (q :: fs'') le_rfl
            (by simp) hgv.2
          rw [hpf f' rest (by omega)]
          rfl

theorem parseV_stringify (v : JSValue) (hv : goodJson v = true) (f : Nat)
    (rest : List Char) (hf : (jsonStringifyV v).length < f) (hrest : restOk rest) :
    parseV f (jsonStringifyV v ++ rest) = some (v, rest) :=
  (parse_stringify_main (sizeOf v)).1 v le_rfl hv f rest hf hrest


theorem dropWhile_id_of_head (p : Char → Bool) (l : List Char)
    (h : ∀ c, l.head? = some c → p c = false) : l.dropWhile p = l := by
  cases l with
  | nil => rfl
  | cons c cs =>
    rw [List.dropWhile_cons, h c rfl]
    simp

theorem jsonTrimChars_id (cs : List Char)
    (hh : ∀ c, cs.head? = some c → isJsonWs c = false)
    (hl : ∀ c, cs.getLast? = some c → isJsonWs c = false) :
    jsonTrimChars cs = cs := by
  unfold jsonTrimChars
  rw [dropWhile_id_of_head _ _ hh,
    dropWhile_id_of_head _ _ (fun c hc => hl c (by rwa [List.head?_reverse] at hc)),
    List.reverse_reverse]

theorem natDigits_last (m : Nat) :
    ∃ c, (natDigits m).getLast? = some c ∧ isDigitChar c = true := by
  induction m using natDigits.induct with
  | case1 n hlt =>
    rw [natDigits, dif_pos hlt]
    exact ⟨digitChar n, rfl, (digitChar_spec n hlt).1⟩
  | case2 n hge ih =>
    rw [natDigits, dif_neg hge]
    exact ⟨digitChar (n % 10), List.getLast?_concat _, (digitChar_spec (n % 10) (by omega)).1⟩

theorem jsonStringifyV_last (v : JSValue) :
    ∃ c, (jsonStringifyV v).getLast? = some c ∧ isJsonWs c = false := by
  cases v with
  | undef => exact ⟨'l', by rw [jsonStringifyV]; rfl, by decide⟩
  | null => exact ⟨'l', by rw [jsonStringifyV]; rfl, by decide⟩
  | bool b =>
    cases b
    · exact ⟨'e', by rw [jsonStringifyV]; rfl, by decide⟩
    · exact ⟨'e', by rw [jsonStringifyV]; rfl, by decide⟩
  | num i =>
    obtain ⟨c, hlast, hdig⟩ := natDigits_last (if i < 0 then (-i).toNat else i.toNat)
    refine ⟨c, ?_, (digit_not_special c hdig).1⟩
    rw [jsonStringifyV]
    unfold intChars
    by_cases hneg : i < 0
    · rw [if_pos hneg]
      rw [if_pos hneg] at hlast
      obtain ⟨hne, _, _⟩ := natDigits_facts (-i).toNat
      cases hn : natDigits (-i).toNat with
      | nil => exact absurd hn hne
      | cons d tl =>
        rw [hn] at hlast
        rw [show ('-' :: (d :: tl)).getLast? = (d :: tl).getLast? from rfl]
        exact hlast
    · rw [if_neg hneg]
      rw [if_neg hneg] at hlast
      exact hlast
  | str s =>
    refine ⟨'"', ?_, by decide⟩
    rw [jsonStringifyV]
    rw [show '"' :: (escapeChars s.data ++ ['"']) = ('"' :: escapeChars s.data) ++ ['"'] by
      simp]
    exact List.getLast?_concat _
  | arr xs =>
    refine ⟨']', ?_, by decide⟩
    rw [jsonStringifyV]
    rw [show '[' :: (jsonStringifyItems xs ++ [']']) =
      ('[' :: jsonStringifyItems xs) ++ [']'] by simp]
    exact List.getLast?_concat _
  | obj fs =>
    refine ⟨'}', ?_, by decide⟩
    rw [jsonStringifyV]
    rw [show '{' :: (jsonStringifyFields fs ++ ['}']) =
      ('{' :: jsonStringifyFields fs) ++ ['}'] by simp]
    exact List.getLast?_concat _

/-- The JSON.parse model inverts the JSON.stringify model on every value in
the image of JSON. -/
theorem jsonParse_stringify (v : JSValue) (hv : goodJson v = true) :
    jsonParse (jsonStringify v) = some v := by
  unfold jsonParse jsonStringify
  obtain ⟨c0, tl0, hhead, hws0, _⟩ := jsonStringifyV_head v
  obtain ⟨cl, hlast, hwsl⟩ := jsonStringifyV_last v
  have htrim : jsonTrimChars (String.mk (jsonStringifyV v)).data = jsonStringifyV v := by
    apply jsonTrimChars_id
    · intro c hc
      rw [show (String.mk (jsonStringifyV v)).data = jsonStringifyV v from rfl, hhead] at hc
      simp only [List.head?_cons, Option.some.injEq] at hc
      exact hc ▸ hws0
    · intro c hc
      rw [show (String.mk (jsonStringifyV v)).data = jsonStringifyV v from rfl, hlast] at hc
      simp only [Option.some.injEq] at hc
      exact hc ▸ hwsl
  rw [htrim]
  have hrun := parseV_stringify v hv ((String.mk (jsonStringifyV v)).data.length + 1) []
    (by rw [show (String.mk (jsonStringifyV v)).data = jsonStringifyV v from rfl]; omega)
    (by exact trivial)
  rw [List.append_nil] at hrun
  rw [hrun]


/-! ## Shared JavaScript-level helpers -/

open JSValue in
/-- JavaScript `a && b`. -/
def jsAnd (a b : JSValue) : JSValue := if a.truthy then b else a

/-- Strict equality of a value against a string literal (the only strict
comparisons the sources perform on dynamic values). -/
def strictEqStr : JSValue → String → Bool
  | .str t, s => t == s
  | _, _ => false

def isNullV : JSValue → Bool
  | .null => true
  | _ => false

def isUndefV : JSValue → Bool
  | .undef => true
  | _ => false

/-- Strict equality against the boolean literal `true`. -/
def isTrueV : JSValue → Bool
  | .bool true => true
  | _ => false

/-- `s.startsWith(c)` for a single character. -/
def strStartsWithChar (s : String) (c : Char) : Bool := s.data.head? == some c

/-- `s.endsWith(c)` for a single character. -/
def strEndsWithChar (s : String) (c : Char) : Bool := s.data.getLast? == some c

/-- Model of the `JSON.parse` builtin applied to an arbitrary value, as the
sources do inside their try/catch wrappers: a thrown error and a parsed
`null` both come back as `null` (the callers cannot tell them apart).
Non-string arguments are coerced to text first; the sources only ever
reach this with strings, numbers, booleans or nullish values. -/
def jsonParseJS : JSValue → JSValue
  | .str s => (jsonParse s).getD .null
  | .num i => .num i
  | .bool b => .bool b
  | _ => .null

/-- `Number(v)` restricted to the integer values this model observes
(`NaN` and fractional results are outside the model and collapse to 0;
no claim under study reads a timestamp produced from a non-numeric
field). -/
def jsToNumber : JSValue → Int
  | .num n => n
  | .bool b => if b then 1 else 0
  | .str s =>
    match parseNumToken (jsTrim s).data with
    | some (i, []) => i
    | some _ => 0
    | none => 0
  | _ => 0

/-- URL-safe to standard base64 alphabet translation (the two `replace`
calls mapping minus to plus and underscore to slash). -/
def urlToStd (c : Char) : Char := if c = '-' then '+' else if c = '_' then '/' else c

/-- The `while (t.length % 4) t += '='` padding loop. -/
def padTo4 (cs : List Char) : List Char :=
  cs ++ List.replicate ((4 - cs.length % 4) % 4) '='

/-- Character class of the base64-likeness regular expression (ASCII
letters, digits, minus, underscore). -/
def isB64UrlChar (c : Char) : Bool :=
  ('A' ≤ c && c ≤ 'Z') || ('a' ≤ c && c ≤ 'z') || ('0' ≤ c && c ≤ '9') ||
    c == '-' || c == '_'

/-- Whether a character list matches the base64-likeness test of the
source (a nonempty run of the class above followed only by padding; the
decomposition is unique since the padding character is not in the
class). -/
def likeB64Chars (cs : List Char) : Bool :=
  let core := cs.takeWhile isB64UrlChar
  1 ≤ core.length && (cs.drop core.length).all (fun c => c == '=')

/-! Field-name constants of the wire format and the canonical records. -/

def kE : String := "e"
def kEvent : String := "event"
def kEid : String := "eid"
def kTs : String := "ts"
def kVid : String := "vid"
def kSid : String := "sid"
def kP : String := "p"
def kUrl : String := "url"
def kRaw : String := "raw"
def kDtm : String := "dtm"
def kTimestamp : String := "timestamp"
def kPageUrl : String := "pageUrl"
def kPageTitle : String := "pageTitle"
def kDt : String := "dt"
def kRefr : String := "refr"
def kReferrer : String := "referrer"
def kTitle : String := "title"
def kEventType : String := "eventType"
def kSchema : String := "schema"
def kPayload : String := "payload"
def kData : String := "data"
def kSelf : String := "self"
def kCategory : String := "category"
def kAction : String := "action"
def kLabel : String := "label"
def kProperty : String := "property"
def kSeCa : String := "se_ca"
def kSeAc : String := "se_ac"
def kSeLa : String := "se_la"
def kSePr : String := "se_pr"
def kUePx : String := "ue_px"
def kUePr : String := "ue_pr"
def kUnstructEvent : String := "unstruct_event"
def kUnstruct : String := "unstruct"
def kUe : String := "ue"
def kOk : String := "ok"
def kResult : String := "result"

def sSe : String := "se"
def sStructuredEvent : String := "structured_event"
def sUe : String := "ue"
def sUnstruct : String := "unstruct"
def sUePx : String := "ue_px"
def sPv : String := "pv"
def sPageView : String := "page_view"
def sUnknown : String := "unknown"
def sRawText : String := "raw_text"

/-- The event timestamp
`ev.dtm ? Number(ev.dtm) : (ev.timestamp ? Number(ev.timestamp) : Date.now())`,
shared verbatim by both parser files. -/
def tsOf (ev : JSValue) (now : Int) : Int :=
  if (ev.getField kDtm).truthy then jsToNumber (ev.getField kDtm)
  else if (ev.getField kTimestamp).truthy then jsToNumber (ev.getField kTimestamp)
  else now

/-- The `common` record shared verbatim by both `parseSnowplowEvent`
versions. -/
def commonFields (ev : JSValue) (now : Int) : List (String × JSValue) :=
  [(kEid, JSValue.jsOr (ev.getField kEid) .null),
   (kTs, .num (tsOf ev now)),
   (kVid, JSValue.jsOr (ev.getField kVid) .null),
   (kSid, JSValue.jsOr (ev.getField kSid) .null),
   (kP, JSValue.jsOr (ev.getField kP) .null),
   (kUrl, JSValue.jsOr (ev.getField kUrl) (JSValue.jsOr (ev.getField kPageUrl) .null)),
   (kRaw, ev)]


/-! ## Embedding of src/utils/const.js -/

namespace CJS

open JSValue

/-- const.js `isLikelyBase64`. -/
def isLikelyBase64 (s : JSValue) : Bool :=
  match s with
  | .str t =>
    if (jsTrim t).data.length < 8 then false
    else likeB64Chars (jsTrim t).data
  | _ => false

/-- const.js `isLikelyJsonString`. -/
def isLikelyJsonString (s : JSValue) : Bool :=
  match s with
  | .str t => strStartsWithChar (jsTrim t) '{' || strStartsWithChar (jsTrim t) '['
  | _ => false

/-- const.js `tryParseJsonSafe` (JSON.parse inside try/catch). -/
def tryParseJsonSafe (s : JSValue) : JSValue := jsonParseJS s

/-- const.js `binaryStringToUtf8`: the binary string is reinterpreted as
UTF-8 bytes.  The explicit percent-encoding branch throws on malformed
sequences (`none` here); the `TextDecoder` branch agrees with it on every
well-formed sequence. -/
def binaryStringToUtf8 (bin : List Nat) : Option String :=
  (utf8Decode bin).map String.mk

/-- const.js `tryDecodeBase64JsonSafe`. -/
def tryDecodeBase64JsonSafe (b64 : JSValue) : JSValue :=
  match b64 with
  | .str s =>
    if s.data.length = 0 then .null
    else
      match atobModel (String.mk (padTo4 (s.data.map urlToStd))) with
      | none => .null
      | some bin =>
        if bin.isEmpty then .null
        else
          match binaryStringToUtf8 bin with
          | none => .null
          | some txt => tryParseJsonSafe (.str txt)
  | _ => .null

/-- const.js `tryNormalize`. -/
def tryNormalize (cand : JSValue) : JSValue :=
  if cand.looseNull then .null
  else if cand.typeofObject then cand
  else if ¬ cand.typeofString then .null
  else if isLikelyJsonString cand then
    let p := tryParseJsonSafe cand
    if p.truthy then p
    else
      let p2 := tryDecodeBase64JsonSafe cand
      if p2.truthy then p2 else .null
  else if isLikelyBase64 cand then
    let p := tryDecodeBase64JsonSafe cand
    if p.truthy then p else tryParseJsonSafe cand
  else tryParseJsonSafe cand

/-- The carrier try-loop of the self-describing branch: successive
`tryNormalize` until a truthy result; with no success the loop leaves the
last attempt's value (falsy). -/
def firstNormalized : List JSValue → JSValue
  | [] => .null
  | [c] => tryNormalize c
  | c :: d :: cs =>
    let n := tryNormalize c
    if n.truthy then n else firstNormalized (d :: cs)

/-- const.js `parseSnowplowEvent`.  `Date.now()` is the `now` argument.
In the page-view branch the later `...common` spread overwrites the
branch's own `url` entry in place, which the model resolves directly. -/
def parseSnowplowEvent (ev : JSValue) (encodeBase64 : JSValue) (now : Int) : JSValue :=
  if ¬ ev.truthy || ¬ ev.typeofObject then .null
  else if strictEqStr (ev.getField kE) sSe ||
      strictEqStr (ev.getField kE) sStructuredEvent then
    let sePr0 := ev.getField kSePr
    let sePr := if sePr0.typeofString then jsOr (tryParseJsonSafe sePr0) sePr0 else sePr0
    .obj ([(kEventType, .str sStructuredEvent),
      (kCategory, jsOr (ev.getField kSeCa) (jsOr (ev.getField kCategory) .null)),
      (kAction, jsOr (ev.getField kSeAc) (jsOr (ev.getField kAction) .null)),
      (kLabel, jsOr (ev.getField kSeLa) .null),
      (kProperty, jsOr sePr .null)] ++ commonFields ev now)
  else if strictEqStr (ev.getField kE) sUe || strictEqStr (ev.getField kE) sUnstruct then
    let uePx := ev.getField kUePx
    let uePr := ev.getField kUePr
    let unstruct := jsOr (ev.getField kUnstructEvent)
      (jsOr (ev.getField kUnstruct) (ev.getField kUe))
    let ordered : List JSValue :=
      if isTrueV encodeBase64 then [uePx, uePr, unstruct]
      else if encodeBase64.truthy then [uePr, uePx, unstruct]
      else if uePr.truthy && isLikelyJsonString uePr then [uePr, uePx, unstruct]
      else if uePx.truthy && isLikelyBase64 uePx then [uePx, uePr, unstruct]
      else [uePr, uePx, unstruct]
    let normalized0 := firstNormalized ordered
    let normalized :=
      if ¬ normalized0.truthy && unstruct.truthy then jsOr (tryNormalize unstruct) .null
      else normalized0
    let schema :=
      if normalized.truthy then
        jsOr (normalized.getField kSchema)
          (jsOr (jsAnd (normalized.getField kSelf) ((normalized.getField kSelf).getField kSchema))
            .null)
      else .null
    let payload :=
      if normalized.truthy then
        let p0 := jsOr (normalized.getField kData)
          (jsOr (jsAnd (normalized.getField kSelf) ((normalized.getField kSelf).getField kData))
            normalized)
        if p0.truthy && p0.typeofObject && ¬ isUndefV (p0.getField kData) &&
            (p0.getField kData).typeofObject then
          p0.getField kData
        else p0
      else ev
    .obj ([(kEventType, .str sUnstruct), (kSchema, schema), (kPayload, payload)] ++
      commonFields ev now)
  else if strictEqStr (ev.getField kEvent) sPageView || strictEqStr (ev.getField kE) sPv then
    .obj [(kEventType, .str sPageView),
      (kTitle, jsOr (ev.getField kPageTitle) (jsOr (ev.getField kDt) .null)),
      (kUrl, jsOr (ev.getField kUrl) (jsOr (ev.getField kPageUrl) .null)),
      (kReferrer, jsOr (ev.getField kRefr) (jsOr (ev.getField kReferrer) .null)),
      (kEid, jsOr (ev.getField kEid) .null),
      (kTs, .num (tsOf ev now)),
      (kVid, jsOr (ev.getField kVid) .null),
      (kSid, jsOr (ev.getField kSid) .null),
      (kP, jsOr (ev.getField kP) .null),
      (kRaw, ev)]
  else
    .obj ([(kEventType, jsOr (ev.getField kE) (jsOr (ev.getField kEvent) (.str sUnknown))),
      (kPayload, ev)] ++ commonFields ev now)

/-- The body of const.js `parseSync` after string normalization (the
`parsed` value is an object, array or primitive). -/
def parseParsed (parsed : JSValue) (encodeBase64 : JSValue) (now : Int) : List JSValue :=
  if parsed.truthy && parsed.typeofObject then
    if (parsed.getField kSchema).truthy && (parsed.getField kData).isArray then
      match parsed.getField kData with
      | .arr xs => (xs.map (fun ev => parseSnowplowEvent ev encodeBase64 now)).filter truthy
      | _ => []
    else if parsed.isArray then
      match parsed with
      | .arr xs => (xs.map (fun ev => parseSnowplowEvent ev encodeBase64 now)).filter truthy
      | _ => []
    else if (parsed.getField kUnstructEvent).truthy then
      let ud := parsed.getField kUnstructEvent
      let normalized := jsOr (ud.getField kData)
        (jsOr (tryDecodeBase64JsonSafe (jsOr (parsed.getField kUePx) (.str "")))
          (jsOr (tryParseJsonSafe (jsOr (parsed.getField kUePr) (.str ""))) ud))
      let schema := jsOr (ud.getField kSchema)
        (jsOr (jsAnd normalized (normalized.getField kSchema)) .null)
      let payload := jsOr (jsAnd normalized (jsOr (normalized.getField kData) normalized)) ud
      [.obj [(kEventType, .str sUnstruct), (kSchema, schema), (kPayload, payload),
        (kRaw, parsed)]]
    else [parseSnowplowEvent parsed encodeBase64 now]
  else [.obj [(kEventType, .str sUnknown), (kPayload, parsed)]]

/-- const.js `parseSync`. -/
def parseSync (bodyText : JSValue) (encodeBase64 : JSValue) (now : Int) : List JSValue :=
  if bodyText.looseNull then []
  else
    match bodyText with
    | .str s =>
      let t := jsTrim s
      if (strStartsWithChar t '{' && strEndsWithChar t '}') ||
          (strStartsWithChar t '[' && strEndsWithChar t ']') then
        let p := tryParseJsonSafe (.str t)
        if ¬ isNullV p then parseParsed p encodeBase64 now
        else
          let dec := tryDecodeBase64JsonSafe (.str t)
          if ¬ isNullV dec then parseParsed dec encodeBase64 now
          else [.obj [(kEventType, .str sRawText), (kPayload, .str t)]]
      else
        let dec := tryDecodeBase64JsonSafe (.str t)
        if ¬ isNullV dec then parseParsed dec encodeBase64 now
        else
          let p2 := tryParseJsonSafe (.str t)
          if ¬ isNullV p2 then parseParsed p2 encodeBase64 now
          else [.obj [(kEventType, .str sRawText), (kPayload, .str t)]]
    | _ => parseParsed bodyText encodeBase64 now

/-- The chunked loop of the const.js entry point (batches of 50, filtering
falsy normalizations, identical to the flat map modulo scheduling). -/
def chunkedParse50 (encodeBase64 : JSValue) (now : Int) : List JSValue → List JSValue
  | [] => []
  | x :: rest =>
    (((x :: rest).take 50).map (fun ev => parseSnowplowEvent ev encodeBase64 now)).filter
        truthy ++
      chunkedParse50 encodeBase64 now ((x :: rest).drop 50)
  termination_by xs => xs.length
  decreasing_by simp [List.length_drop]; omega

/-- const.js default export `transformSnowplowPayload` (the async entry;
the inter-chunk awaits are scheduling only and do not appear in the value
model). -/
def transformSnowplowPayload (bodyText : JSValue) (encodeBase64 : JSValue) (now : Int) :
    List JSValue :=
  if bodyText.looseNull then []
  else
    let top :=
      match bodyText with
      | .str s =>
        let maybe := tryParseJsonSafe (.str s)
        if ¬ isNullV maybe then maybe
        else if isLikelyBase64 (.str s) then
          let dec := tryDecodeBase64JsonSafe (.str s)
          if ¬ isNullV dec then dec else bodyText
        else bodyText
      | _ => bodyText
    match top with
    | .arr xs =>
      if 50 < xs.length then chunkedParse50 encodeBase64 now xs
      else parseSync top encodeBase64 now
    | _ => parseSync top encodeBase64 now

end CJS


/-! ## Embedding of src/utils/parseWithWebWorker.js -/

namespace WJS

open JSValue

/-- The recognized options with their `DEFAULTS` (the caller's options
object is spread over `DEFAULTS`, so a call always sees this shape). -/
structure WOpts where
  useWorker : Bool
  workerThresholdEvents : Nat
  workerThresholdBytes : Nat
  chunkSize : Nat
  workerTimeoutMs : Nat
  debug : Bool

def DEFAULTS : WOpts :=
  { useWorker := true
    workerThresholdEvents := 100
    workerThresholdBytes := 50 * 1024
    chunkSize := 50
    workerTimeoutMs := 3000
    debug := false }

/-- parseWithWebWorker.js `base64DecodeToString`.  The percent-encoding
loop plus `decodeURIComponent` is strict UTF-8 decoding; when it throws,
the inner catch returns the plain `atob` result, i.e. the bytes read as
Latin-1 code units. -/
def base64DecodeToString (b64 : JSValue) : JSValue :=
  match b64 with
  | .str s =>
    if ¬ (JSValue.str s).truthy then .null
    else
      match atobModel (String.mk (padTo4 (s.data.map urlToStd))) with
      | none => .null
      | some bin =>
        match utf8Decode bin with
        | some txt => .str (String.mk txt)
        | none => .str (String.mk (bin.map (fun b => Char.ofNat b)))
  | _ => .null

/-- parseWithWebWorker.js `tryDecodeBase64Json`. -/
def tryDecodeBase64Json (b64 : JSValue) : JSValue :=
  let txt := base64DecodeToString b64
  if ¬ txt.truthy then .null
  else
    match txt with
    | .str s => (jsonParse s).getD .null
    | _ => .null

/-- parseWithWebWorker.js `tryParseJSONSafe`. -/
def tryParseJSONSafe (s : JSValue) : JSValue := jsonParseJS s

/-- parseWithWebWorker.js `parseSnowplowEvent` (no `encodeBase64`
parameter in this file; `Date.now()` is the `now` argument; the
page-view branch has the same in-place `url` override by the `...common`
spread as the const.js version). -/
def parseSnowplowEvent (ev : JSValue) (now : Int) : JSValue :=
  if ¬ ev.truthy || ¬ ev.typeofObject then .null
  else if strictEqStr (ev.getField kE) sSe ||
      strictEqStr (ev.getField kE) sStructuredEvent then
    let sePr0 := ev.getField kSePr
    let sePr :=
      match sePr0 with
      | .str s => (jsonParse s).getD (.str s)
      | _ => sePr0
    .obj ([(kEventType, .str sStructuredEvent),
      (kCategory, jsOr (ev.getField kSeCa) (jsOr (ev.getField kCategory) .null)),
      (kAction, jsOr (ev.getField kSeAc) (jsOr (ev.getField kAction) .null)),
      (kLabel, jsOr (ev.getField kSeLa) .null),
      (kProperty, jsOr sePr .null)] ++ commonFields ev now)
  else if strictEqStr (ev.getField kE) sUe || strictEqStr (ev.getField kE) sUnstruct ||
      strictEqStr (ev.getField kE) sUePx || (ev.getField kUnstructEvent).truthy then
    let uePx := jsOr (ev.getField kUePx)
      (jsOr (ev.getField kUnstructEvent) (jsOr (ev.getField kUnstruct) .null))
    let decoded :=
      if uePx.typeofString then jsOr (tryDecodeBase64Json uePx) (tryParseJSONSafe uePx)
      else if uePx.typeofObject then uePx
      else .null
    let schema :=
      if decoded.truthy then
        jsOr (decoded.getField kSchema)
          (jsOr (jsAnd (decoded.getField kSelf) ((decoded.getField kSelf).getField kSchema))
            .null)
      else jsOr (ev.getField kSchema) .null
    let data :=
      if decoded.truthy then
        jsOr (decoded.getField kData)
          (jsOr (jsAnd (decoded.getField kSelf) ((decoded.getField kSelf).getField kData))
            decoded)
      else jsOr (ev.getField kData) (jsOr (ev.getField kPayload) ev)
    .obj ([(kEventType, .str sUnstruct), (kSchema, schema), (kPayload, data)] ++
      commonFields ev now)
  else if strictEqStr (ev.getField kEvent) sPageView || strictEqStr (ev.getField kE) sPv then
    .obj [(kEventType, .str sPageView),
      (kTitle, jsOr (ev.getField kPageTitle) (jsOr (ev.getField kDt) .null)),
      (kUrl, jsOr (ev.getField kUrl) (jsOr (ev.getField kPageUrl) .null)),
      (kReferrer, jsOr (ev.getField kRefr) (jsOr (ev.getField kReferrer) .null)),
      (kEid, jsOr (ev.getField kEid) .null),
      (kTs, .num (tsOf ev now)),
      (kVid, jsOr (ev.getField kVid) .null),
      (kSid, jsOr (ev.getField kSid) .null),
      (kP, jsOr (ev.getField kP) .null),
      (kRaw, ev)]
  else
    .obj ([(kEventType, jsOr (ev.getField kE) (jsOr (ev.getField kEvent) (.str sUnknown))),
      (kPayload, ev)] ++ commonFields ev now)

/-- The object part of parseWithWebWorker.js `parseSync` (after the
string branch has produced `parsed`). -/
def parseParsed (parsed : JSValue) (now : Int) : List JSValue :=
  if parsed.truthy && parsed.typeofObject then
    if (parsed.getField kSchema).truthy && (parsed.getField kData).isArray then
      match parsed.getField kData with
      | .arr xs => (xs.map (fun ev => parseSnowplowEvent ev now)).filter truthy
      | _ => []
    else if parsed.isArray then
      match parsed with
      | .arr xs => (xs.map (fun ev => parseSnowplowEvent ev now)).filter truthy
      | _ => []
    else if (parsed.getField kUnstructEvent).truthy then
      let ud := parsed.getField kUnstructEvent
      let decoded := jsOr (ud.getField kData)
        (tryDecodeBase64Json
          (jsOr (parsed.getField kUePx) (jsAnd (ud.getField kData) (ud.getField kData))))
      [.obj [(kEventType, .str sUnstruct), (kSchema, jsOr (ud.getField kSchema) .null),
        (kPayload, jsOr decoded (jsOr (ud.getField kData) ud)), (kRaw, parsed)]]
    else [parseSnowplowEvent parsed now]
  else [.obj [(kEventType, .str sUnknown), (kPayload, parsed)]]

/-- parseWithWebWorker.js `parseSync`. -/
def parseSync (bodyText : JSValue) (now : Int) : List JSValue :=
  if ¬ bodyText.truthy then []
  else
    match bodyText with
    | .str s =>
      let t := jsTrim s
      if (strStartsWithChar t '{' && strEndsWithChar t '}') ||
          (strStartsWithChar t '[' && strEndsWithChar t ']') then
        match jsonParse t with
        | some v => parseParsed v now
        | none =>
          let decoded := tryDecodeBase64Json (.str t)
          if decoded.truthy then parseParsed decoded now
          else [.obj [(kEventType, .str sRawText), (kPayload, .str t)]]
      else
        let decoded := tryDecodeBase64Json (.str t)
        if decoded.truthy then parseParsed decoded now
        else [.obj [(kEventType, .str sRawText), (kPayload, .str t)]]
    | _ => parseParsed bodyText now

/-- parseWithWebWorker.js `estimateUtf8Bytes` (`TextEncoder` path). -/
def estimateUtf8Bytes (s : String) : Nat := (utf8Encode s.data).length

/-- The chunked loop of `parseInChunks`.  A zero `chunkSize` never
advances the loop index in the source (the call would hang); the model is
defined for positive chunk sizes and consumes at least one element per
round. -/
def chunkedLoop (chunkSize : Nat) (now : Int) : List JSValue → List JSValue
  | [] => []
  | x :: rest =>
    (((x :: rest).take chunkSize).map (fun ev => parseSnowplowEvent ev now)).filter truthy ++
      chunkedLoop chunkSize now (rest.drop (chunkSize - 1))
  termination_by xs => xs.length
  decreasing_by simp [List.length_drop]; omega

/-- parseWithWebWorker.js `parseInChunks` (the inter-chunk awaits are
scheduling only). -/
def parseInChunks (bodyText : JSValue) (opts : WOpts) (now : Int) : List JSValue :=
  let chunkSize := opts.chunkSize
  let step : JSValue → List JSValue := fun parsed =>
    match parsed with
    | .arr xs =>
      if chunkSize < xs.length then chunkedLoop chunkSize now xs
      else parseSync parsed now
    | _ => parseSync parsed now
  match bodyText with
  | .str s =>
    match jsonParse s with
    | some v => step v
    | none =>
      let dec := tryDecodeBase64Json (.str s)
      if dec.truthy then step dec
      else parseSync bodyText now
  | _ => step bodyText

/-- One possible occurrence seen by the worker session: a posted message,
a worker error, or the timeout firing. -/
inductive WEvent : Type where
  | message : JSValue → WEvent
  | werror : WEvent
  | timerFire : WEvent

/-- Whether an occurrence is a clean success (`d && d.ok`). -/
def cleanSuccess : WEvent → Bool
  | .message d => d.truthy && (d.getField kOk).truthy
  | _ => false

/-- The value each handler resolves with (all three resolve; anything but
a clean success falls back to `parseSync` of the original payload). -/
def eventResult (bodyText : JSValue) (now : Int) : WEvent → JSValue
  | .message d =>
    if d.truthy && (d.getField kOk).truthy then d.getField kResult
    else .arr (parseSync bodyText now)
  | .werror => .arr (parseSync bodyText now)
  | .timerFire => .arr (parseSync bodyText now)

/-- One handler activation: the `terminated` single-shot token makes every
occurrence after the first a no-op. -/
def raceStep (bodyText : JSValue) (now : Int) (st : Bool × List (Nat × JSValue))
    (e : Nat × WEvent) : Bool × List (Nat × JSValue) :=
  if st.1 then st else (true, st.2 ++ [(e.1, eventResult bodyText now e.2)])

/-- The timestamped resolutions of one `parseWithWorker` call: creation
failure resolves immediately with the synchronous fallback; otherwise the
trace of occurrences drives the single-shot handlers. -/
def parseWithWorkerRuns (bodyText : JSValue) (now : Int) (creationOk : Bool)
    (events : List (Nat × WEvent)) : List (Nat × JSValue) :=
  if ¬ creationOk then [(0, .arr (parseSync bodyText now))]
  else (events.foldl (raceStep bodyText now) (false, [])).2

/-- The resolved value of `parseWithWorker`.  In every real trace the
timeout guarantees at least one occurrence; an empty trace (the promise
never settling) defaults to the fallback value to keep the model total. -/
def parseWithWorkerResult (bodyText : JSValue) (now : Int) (creationOk : Bool)
    (events : List (Nat × WEvent)) : JSValue :=
  (((parseWithWorkerRuns bodyText now creationOk events).head?).map Prod.snd).getD
    (.arr (parseSync bodyText now))

/-- The estimation block of the entry point: rough byte size and top-level
event count. -/
def estimates (bodyText : JSValue) : Nat × Nat :=
  match bodyText with
  | .str s =>
    (estimateUtf8Bytes s,
     if strStartsWithChar (jsTrim s) '[' then
       ((jsTrim s).data.filter (fun c => c == ',')).length + 1
     else 0)
  | .arr xs =>
    (estimateUtf8Bytes (String.mk (jsonStringifyV (.arr xs))), xs.length)
  | .obj fs =>
    (estimateUtf8Bytes (String.mk (jsonStringifyV (.obj fs))),
     if (JSValue.obj fs).getField kData |>.truthy then
       match (JSValue.obj fs).getField kData with
       | .arr ys => ys.length
       | _ => 0
     else 0)
  | _ => (0, 0)

/-- The dispatch decision
`useWorker && ((topLevelCount && topLevelCount >= workerThresholdEvents) ||
(estimatedBytes && estimatedBytes >= workerThresholdBytes))`
(a zero count or size is falsy and cannot trigger dispatch). -/
def shouldUseWorker (bodyText : JSValue) (opts : WOpts) : Bool :=
  let est := estimates bodyText
  opts.useWorker &&
    ((est.2 != 0 && opts.workerThresholdEvents ≤ est.2) ||
     (est.1 != 0 && opts.workerThresholdBytes ≤ est.1))

/-- Whether a call takes the background (worker) path:
`shouldUseWorker && typeof Worker !== 'undefined'`, never reached for a
falsy payload (early return). -/
def backgroundSelected (bodyText : JSValue) (opts : WOpts) (workerAvailable : Bool) : Bool :=
  bodyText.truthy && shouldUseWorker bodyText opts && workerAvailable

/-- parseWithWebWorker.js default export `transformSnowplowPayload`.  The
environment (Worker availability, worker-creation success and the
occurrence trace of the session) is passed explicitly. -/
def transformSnowplowPayload (bodyText : JSValue) (opts : WOpts) (workerAvailable : Bool)
    (creationOk : Bool) (events : List (Nat × WEvent)) (now : Int) : JSValue :=
  if ¬ bodyText.truthy then .arr []
  else if shouldUseWorker bodyText opts && workerAvailable then
    parseWithWorkerResult bodyText now creationOk events
  else .arr (parseInChunks bodyText opts now)

end WJS


/-! ## Claim-support lemmas -/

/-- A canonical batch element (what the spec calls a `ParsedBatch` entry):
a truthy object carrying an `eventType` key. -/
def isEventRecord (v : JSValue) : Bool :=
  v.truthy && v.typeofObject && v.hasField kEventType

theorem isEventRecord_head (w : JSValue) (fs : List (String × JSValue)) :
    isEventRecord (.obj ((kEventType, w) :: fs)) = true := by
  simp [isEventRecord, JSValue.truthy, JSValue.typeofObject, JSValue.hasField]

namespace CJS

theorem parseSnowplowEvent_obj (ev enc : JSValue) (now : Int)
    (ht : ev.truthy = true) (ho : ev.typeofObject = true) :
    ∃ w fs, parseSnowplowEvent ev enc now = .obj ((kEventType, w) :: fs) := by
  unfold parseSnowplowEvent
  rw [if_neg (by simp [ht, ho])]
  split
  · exact ⟨_, _, rfl⟩
  · split
    · exact ⟨_, _, rfl⟩
    · split
      · exact ⟨_, _, rfl⟩
      · exact ⟨_, _, rfl⟩

theorem parseSnowplowEvent_cases (ev enc : JSValue) (now : Int) :
    parseSnowplowEvent ev enc now = .null ∨
      ∃ w fs, parseSnowplowEvent ev enc now = .obj ((kEventType, w) :: fs) := by
  unfold parseSnowplowEvent
  split
  · exact Or.inl rfl
  · split
    · exact Or.inr ⟨_, _, rfl⟩
    · split
      · exact Or.inr ⟨_, _, rfl⟩
      · split
        · exact Or.inr ⟨_, _, rfl⟩
        · exact Or.inr ⟨_, _, rfl⟩

theorem filtered_records (xs : List JSValue) (enc : JSValue) (now : Int) :
    ∀ x ∈ (xs.map (fun ev => parseSnowplowEvent ev enc now)).filter JSValue.truthy,
      isEventRecord x = true := by
  intro x hx
  rw [List.mem_filter] at hx
  obtain ⟨hmem, htr⟩ := hx
  obtain ⟨y, _, rfl⟩ := List.mem_map.mp hmem
  rcases parseSnowplowEvent_cases y enc now with hnull | ⟨w, fs, hobj⟩
  · rw [hnull] at htr
    exact absurd htr (by simp [JSValue.truthy])
  · rw [hobj]
    exact isEventRecord_head w fs

theorem parseParsed_records (p enc : JSValue) (now : Int) :
    ∀ x ∈ parseParsed p enc now, isEventRecord x = true := by
  intro x hx
  unfold parseParsed at hx
  split at hx
  · rename_i hguard
    split at hx
    · split at hx
      · exact filtered_records _ enc now x hx
      · exact absurd hx (List.not_mem_nil x)
    · split at hx
      · split at hx
        · exact filtered_records _ enc now x hx
        · exact absurd hx (List.not_mem_nil x)
      · split at hx
        · rw [List.mem_singleton] at hx
          subst hx
          exact isEventRecord_head _ _
        · rw [List.mem_singleton] at hx
          subst hx
          rw [Bool.and_eq_true] at hguard
          obtain ⟨w, fs, hobj⟩ := parseSnowplowEvent_obj p enc now hguard.1 hguard.2
          rw [hobj]
          exact isEventRecord_head w fs
  · rw [List.mem_singleton] at hx
    subst hx
    exact isEventRecord_head _ _

theorem parseSync_records (b enc : JSValue) (now : Int) :
    ∀ x ∈ parseSync b enc now, isEventRecord x = true := by
  intro x hx
  simp only [parseSync] at hx
  split at hx
  · exact absurd hx (List.not_mem_nil x)
  · split at hx
    · split at hx
      · split at hx
        · exact parseParsed_records _ _ _ x hx
        · split at hx
          · exact parseParsed_records _ _ _ x hx
          · rw [List.mem_singleton] at hx
            subst hx
            exact isEventRecord_head _ _
      · split at hx
        · exact parseParsed_records _ _ _ x hx
        · split at hx
          · exact parseParsed_records _ _ _ x hx
          · rw [List.mem_singleton] at hx
            subst hx
            exact isEventRecord_head _ _
    · exact parseParsed_records _ _ _ x hx

theorem chunkedParse50_eq_aux (enc : JSValue) (now : Int) :
    ∀ (n : Nat) (xs : List JSValue), xs.length ≤ n →
      chunkedParse50 enc now xs =
        (xs.map (fun ev => parseSnowplowEvent ev enc now)).filter JSValue.truthy := by
  intro n
  induction n with
  | zero =>
    intro xs hlen
    have hnil : xs = [] := List.eq_nil_of_length_eq_zero (Nat.le_zero.mp hlen)
    subst hnil
    rw [chunkedParse50.eq_def]
    rfl
  | succ n ih =>
    intro xs hlen
    match xs with
    | [] =>
      rw [chunkedParse50.eq_def]
      rfl
    | x :: rest =>
      rw [chunkedParse50.eq_def]
      simp only []
      have hdrop : ((x :: rest).drop 50).length ≤ n := by
        simp only [List.length_drop, List.length_cons]
        simp only [List.length_cons] at hlen
        omega
      rw [ih _ hdrop]
      conv_rhs => rw [← List.take_append_drop 50 (x :: rest)]
      rw [List.map_append, List.filter_append]

theorem chunkedParse50_eq (enc : JSValue) (now : Int) (xs : List JSValue) :
    chunkedParse50 enc now xs =
      (xs.map (fun ev => parseSnowplowEvent ev enc now)).filter JSValue.truthy :=
  chunkedParse50_eq_aux enc now xs.length xs le_rfl

theorem transform_records (b enc : JSValue) (now : Int) :
    ∀ x ∈ transformSnowplowPayload b enc now, isEventRecord x = true := by
  intro x hx
  simp only [transformSnowplowPayload] at hx
  split at hx
  · exact absurd hx (List.not_mem_nil x)
  · split at hx
    · split at hx
      · rw [chunkedParse50_eq] at hx
        exact filtered_records _ enc now x hx
      · exact parseSync_records _ _ _ x hx
    · exact parseSync_records _ _ _ x hx

end CJS


namespace WJS

theorem parseSnowplowEventW_obj (ev : JSValue) (now : Int)
    (ht : ev.truthy = true) (ho : ev.typeofObject = true) :
    ∃ w fs, parseSnowplowEvent ev now = .obj ((kEventType, w) :: fs) := by
  unfold parseSnowplowEvent
  rw [if_neg (by simp [ht, ho])]
  split
  · exact ⟨_, _, rfl⟩
  · split
    · exact ⟨_, _, rfl⟩
    · split
      · exact ⟨_, _, rfl⟩
      · exact ⟨_, _, rfl⟩

theorem parseSnowplowEventW_cases (ev : JSValue) (now : Int) :
    parseSnowplowEvent ev now = .null ∨
      ∃ w fs, parseSnowplowEvent ev now = .obj ((kEventType, w) :: fs) := by
  unfold parseSnowplowEvent
  split
  · exact Or.inl rfl
  · split
    · exact Or.inr ⟨_, _, rfl⟩
    · split
      · exact Or.inr ⟨_, _, rfl⟩
      · split
        · exact Or.inr ⟨_, _, rfl⟩
        · exact Or.inr ⟨_, _, rfl⟩

theorem filteredW_records (xs : List JSValue) (now : Int) :
    ∀ x ∈ (xs.map (fun ev => parseSnowplowEvent ev now)).filter JSValue.truthy,
      isEventRecord x = true := by
  intro x hx
  rw [List.mem_filter] at hx
  obtain ⟨hmem, htr⟩ := hx
  obtain ⟨y, _, rfl⟩ := List.mem_map.mp hmem
  rcases parseSnowplowEventW_cases y now with hnull | ⟨w, fs, hobj⟩
  · rw [hnull] at htr
    exact absurd htr (by simp [JSValue.truthy])
  · rw [hobj]
    exact isEventRecord_head w fs

theorem parseParsedW_records (p : JSValue) (now : Int) :
    ∀ x ∈ parseParsed p now, isEventRecord x = true := by
  intro x hx
  unfold parseParsed at hx
  split at hx
  · rename_i hguard
    split at hx
    · split at hx
      · exact filteredW_records _ now x hx
      · exact absurd hx (List.not_mem_nil x)
    · split at hx
      · split at hx
        · exact filteredW_records _ now x hx
        · exact absurd hx (List.not_mem_nil x)
      · split at hx
        · rw [List.mem_singleton] at hx
          subst hx
          exact isEventRecord_head _ _
        · rw [List.mem_singleton] at hx
          subst hx
          rw [Bool.and_eq_true] at hguard
          obtain ⟨w, fs, hobj⟩ := parseSnowplowEventW_obj p now hguard.1 hguard.2
          rw [hobj]
          exact isEventRecord_head w fs
  · rw [List.mem_singleton] at hx
    subst hx
    exact isEventRecord_head _ _

theorem parseSyncW_records (b : JSValue) (now : Int) :
    ∀ x ∈ parseSync b now, isEventRecord x = true := by
  intro x hx
  simp only [parseSync] at hx
  split at hx
  · exact absurd hx (List.not_mem_nil x)
  · split at hx
    · split at hx
      · split at hx
        · exact parseParsedW_records _ _ x hx
        · split at hx
          · exact parseParsedW_records _ _ x hx
          · rw [List.mem_singleton] at hx
            subst hx
            exact isEventRecord_head _ _
      · split at hx
        · exact parseParsedW_records _ _ x hx
        · rw [List.mem_singleton] at hx
          subst hx
          exact isEventRecord_head _ _
    · exact parseParsedW_records _ _ x hx

theorem chunkedLoop_eq_aux (cs : Nat) (hcs : 1 ≤ cs) (now : Int) :
    ∀ (n : Nat) (xs : List JSValue), xs.length ≤ n →
      chunkedLoop cs now xs =
        (xs.map (fun ev => parseSnowplowEvent ev now)).filter JSValue.truthy := by
  intro n
  induction n with
  | zero =>
    intro xs hlen
    have hnil : xs = [] := List.eq_nil_of_length_eq_zero (Nat.le_zero.mp hlen)
    subst hnil
    rw [chunkedLoop.eq_def]
    rfl
  | succ n ih =>
    intro xs hlen
    match xs with
    | [] =>
      rw [chunkedLoop.eq_def]
      rfl
    | x :: rest =>
      rw [chunkedLoop.eq_def]
      simp only []
      have hdropeq : rest.drop (cs - 1) = (x :: rest).drop cs := by
        have h1 : cs = (cs - 1) + 1 := by omega
        rw [h1, List.drop_succ_cons]
        simp
      have hdrop : (rest.drop (cs - 1)).length ≤ n := by
        simp only [List.length_drop]
        simp only [List.length_cons] at hlen
        omega
      rw [ih _ hdrop, hdropeq]
      conv_rhs => rw [← List.take_append_drop cs (x :: rest)]
      rw [List.map_append, List.filter_append]

theorem chunkedLoop_eq (cs : Nat) (hcs : 1 ≤ cs) (now : Int) (xs : List JSValue) :
    chunkedLoop cs now xs =
      (xs.map (fun ev => parseSnowplowEvent ev now)).filter JSValue.truthy :=
  chunkedLoop_eq_aux cs hcs now xs.length xs le_rfl

theorem parseInChunks_records (b : JSValue) (opts : WOpts) (now : Int)
    (hcs : 1 ≤ opts.chunkSize) :
    ∀ x ∈ parseInChunks b opts now, isEventRecord x = true := by
  intro x hx
  simp only [parseInChunks] at hx
  split at hx
  · split at hx
    · split at hx
      · split at hx
        · rw [chunkedLoop_eq _ hcs] at hx
          exact filteredW_records _ now x hx
        · exact parseSyncW_records _ _ x hx
      · exact parseSyncW_records _ _ x hx
    · split at hx
      · split at hx
        · split at hx
          · rw [chunkedLoop_eq _ hcs] at hx
            exact filteredW_records _ now x hx
          · exact parseSyncW_records _ _ x hx
        · exact parseSyncW_records _ _ x hx
      · exact parseSyncW_records _ _ x hx
  · split at hx
    · split at hx
      · rw [chunkedLoop_eq _ hcs] at hx
        exact filteredW_records _ now x hx
      · exact parseSyncW_records _ _ x hx
    · exact parseSyncW_records _ _ x hx

theorem eventResult_of_not_clean (b : JSValue) (now : Int) (e : WEvent)
    (h : cleanSuccess e = false) : eventResult b now e = .arr (parseSync b now) := by
  cases e with
  | message d =>
    have hc : (d.truthy && (d.getField kOk).truthy) = false := h
    show (if (d.truthy && (d.getField kOk).truthy) = true then d.getField kResult
        else JSValue.arr (parseSync b now)) = JSValue.arr (parseSync b now)
    rw [if_neg (by simp [hc])]
  | werror => rfl
  | timerFire => rfl

theorem raceStep_resolved (b : JSValue) (now : Int) (l : List (Nat × JSValue))
    (es : List (Nat × WEvent)) :
    es.foldl (raceStep b now) (true, l) = (true, l) := by
  induction es with
  | nil => rfl
  | cons e es ih =>
    rw [List.foldl_cons]
    have hstep : raceStep b now (true, l) e = (true, l) := by
      unfold raceStep
      rw [if_pos rfl]
    rw [hstep, ih]

theorem workerRuns_fallback (b : JSValue) (now : Int) (t : Nat) (e : WEvent)
    (rest : List (Nat × WEvent)) (hfail : cleanSuccess e = false) :
    parseWithWorkerRuns b now true ((t, e) :: rest) =
      [(t, .arr (parseSync b now))] := by
  unfold parseWithWorkerRuns
  rw [if_neg (by simp)]
  rw [List.foldl_cons]
  have hstep : raceStep b now (false, []) (t, e) =
      (true, [(t, eventResult b now e)]) := by
    unfold raceStep
    rw [if_neg (by simp)]
    rfl
  rw [hstep, eventResult_of_not_clean b now e hfail, raceStep_resolved]

theorem workerResult_fallback (b : JSValue) (now : Int) (creationOk : Bool)
    (events : List (Nat × WEvent))
    (hfail : ∀ e ∈ events, cleanSuccess e.2 = false) :
    parseWithWorkerResult b now creationOk events = .arr (parseSync b now) := by
  cases creationOk with
  | false =>
    unfold parseWithWorkerResult parseWithWorkerRuns
    rw [if_pos (by simp)]
    rfl
  | true =>
    cases events with
    | nil =>
      unfold parseWithWorkerResult parseWithWorkerRuns
      rw [if_neg (by simp)]
      rfl
    | cons e rest =>
      unfold parseWithWorkerResult
      rw [workerRuns_fallback b now e.1 e.2 rest (hfail e (by simp))]
      rfl

theorem transformW_records (b : JSValue) (opts : WOpts) (workerAvailable creationOk : Bool)
    (events : List (Nat × WEvent)) (now : Int)
    (hcs : 1 ≤ opts.chunkSize)
    (hfail : ∀ e ∈ events, cleanSuccess e.2 = false) :
    ∃ l, transformSnowplowPayload b opts workerAvailable creationOk events now = .arr l ∧
      ∀ x ∈ l, isEventRecord x = true := by
  unfold transformSnowplowPayload
  split
  · exact ⟨[], rfl, by intro x hx; exact absurd hx (List.not_mem_nil x)⟩
  · split
    · rw [workerResult_fallback b now creationOk events hfail]
      exact ⟨parseSync b now, rfl, parseSyncW_records b now⟩
    · exact ⟨parseInChunks b opts now, rfl, parseInChunks_records b opts now hcs⟩

end WJS


theorem truthyGate (a t : Nat) (h : 1 ≤ t) :
    ((a != 0) && decide (t ≤ a)) = decide (t ≤ a) := by
  by_cases hle : t ≤ a
  · have ha : (a != 0) = true := by
      simp only [bne_iff_ne, ne_eq]
      omega
    simp [ha]
  · simp [hle]


theorem utf8EncodeChar_length_le (c : Char) : (utf8EncodeChar c).length ≤ 4 := by
  unfold utf8EncodeChar
  dsimp only
  split_ifs <;> simp

theorem utf8Encode_length_le (cs : List Char) :
    (utf8Encode cs).length ≤ 4 * cs.length := by
  induction cs with
  | nil => simp [utf8Encode]
  | cons c cs ih =>
    simp only [utf8Encode, List.length_append, List.length_cons]
    have := utf8EncodeChar_length_le c
    omega

theorem natDigits_one : natDigits 1 = ['1'] := by
  rw [natDigits, dif_pos (by omega)]
  rfl

theorem jsonStringifyV_num_one : jsonStringifyV (JSValue.num 1) = ['1'] := by
  rw [jsonStringifyV]
  show intChars 1 = ['1']
  unfold intChars
  rw [if_neg (by omega)]
  exact natDigits_one

theorem jsonStringifyItems_replicate_one_length (n : Nat) :
    (jsonStringifyItems (List.replicate (n + 1) (JSValue.num 1))).length =
      2 * n + 1 := by
  induction n with
  | zero =>
    show (jsonStringifyItems [JSValue.num 1]).length = 1
    rw [jsonStringifyItems, jsonStringifyV_num_one]
    rfl
  | succ m ih =>
    show (jsonStringifyItems
      (JSValue.num 1 :: JSValue.num 1 :: List.replicate m (JSValue.num 1))).length =
      2 * (m + 1) + 1
    rw [jsonStringifyItems, jsonStringifyV_num_one,
      show (JSValue.num 1 :: List.replicate m (JSValue.num 1)) =
        List.replicate (m + 1) (JSValue.num 1) from rfl]
    simp only [List.length_append, List.length_cons, List.length_nil]
    rw [ih]
    omega

theorem jsonStringifyV_arr_replicate_one_length (n : Nat) :
    (jsonStringifyV (JSValue.arr (List.replicate (n + 1) (JSValue.num 1)))).length =
      2 * n + 3 := by
  rw [jsonStringifyV]
  simp only [List.length_cons, List.length_append, List.length_nil]
  rw [jsonStringifyItems_replicate_one_length]

/-! ## The claims -/

/-- C1: for every input payload (string, object, array, malformed or not)
both top-level transform entry points return an array of event records —
each element a truthy object carrying an `eventType` key, possibly a single
raw-text or unknown-type placeholder — and no exception escapes (every
branch of the model is total and yields a batch).  The worker entry point is
taken under this program's actual worker behaviour: the inline worker script
only ever posts `ok: false`, so no trace occurrence is a clean success. -/
theorem C1_transform_total (bodyText encodeBase64 : JSValue) (now : Int)
    (opts : WJS.WOpts) (workerAvailable creationOk : Bool)
    (events : List (Nat × WJS.WEvent))
    (hcs : 1 ≤ opts.chunkSize)
    (hw : ∀ e ∈ events, WJS.cleanSuccess e.2 = false) :
    (∀ x ∈ CJS.transformSnowplowPayload bodyText encodeBase64 now,
      isEventRecord x = true) ∧
    ∃ l, WJS.transformSnowplowPayload bodyText opts workerAvailable creationOk events
        now = .arr l ∧ ∀ x ∈ l, isEventRecord x = true :=
  ⟨CJS.transform_records bodyText encodeBase64 now,
   WJS.transformW_records bodyText opts workerAvailable creationOk events now hcs hw⟩

theorem C1_transform_total_witness :
    (∀ x ∈ CJS.transformSnowplowPayload (.str "hi") .undef 0, isEventRecord x = true) ∧
    ∃ l, WJS.transformSnowplowPayload (.str "hi") WJS.DEFAULTS true true
        [(5, .werror)] 0 = .arr l ∧ ∀ x ∈ l, isEventRecord x = true :=
  C1_transform_total (.str "hi") .undef 0 WJS.DEFAULTS true true [(5, .werror)]
    (by decide)
    (by intro e he; rw [List.mem_singleton] at he; subst he; rfl)

/-- C3: whenever the background (worker) path runs and no occurrence of the
session is a clean success (worker creation fails, the worker posts an
error or a not-ok message, or the timeout fires first), the call resolves
exactly once — the resolution list is a singleton — with exactly the
synchronous parse of the original payload; a creation failure resolves
immediately, and otherwise the resolution is at the first occurrence, so
when the timer at `workerTimeoutMs` is the only occurrence the call
resolves at the timeout. -/
theorem C3_worker_fallback (bodyText : JSValue) (now : Int)
    (events : List (Nat × WJS.WEvent))
    (hfail : ∀ e ∈ events, WJS.cleanSuccess e.2 = false) :
    WJS.parseWithWorkerRuns bodyText now false events =
      [(0, .arr (WJS.parseSync bodyText now))] ∧
    ∀ t e rest, events = (t, e) :: rest →
      WJS.parseWithWorkerRuns bodyText now true events =
        [(t, .arr (WJS.parseSync bodyText now))] := by
  constructor
  · unfold WJS.parseWithWorkerRuns
    rw [if_pos (by simp)]
  · intro t e rest hev
    subst hev
    exact WJS.workerRuns_fallback bodyText now t e rest (hfail (t, e) (by simp))

theorem C3_worker_fallback_witness :
    WJS.parseWithWorkerRuns (.str "x") 0 false [(3000, .timerFire)] =
      [(0, .arr (WJS.parseSync (.str "x") 0))] ∧
    ∀ t e rest, [((3000 : Nat), WJS.WEvent.timerFire)] = (t, e) :: rest →
      WJS.parseWithWorkerRuns (.str "x") 0 true [(3000, .timerFire)] =
        [(t, .arr (WJS.parseSync (.str "x") 0))] :=
  C3_worker_fallback (.str "x") 0 [(3000, .timerFire)]
    (by intro e he; rw [List.mem_singleton] at he; subst he; rfl)

/-- C4: the background path is selected iff dispatch is enabled, a `Worker`
constructor exists, the payload is truthy, and the estimated event count or
the estimated byte size meets its threshold.  A zero estimate is falsy in
the source's `count && count >= threshold` guard and can never trigger
dispatch, so the clean iff holds for thresholds of at least 1 (the defaults
are 100 events and 51200 bytes).  With the defaults, a 101-element array
selects the background path and a 99-element small array does not. -/
theorem C4_dispatch_decision (opts : WJS.WOpts)
    (hte : 1 ≤ opts.workerThresholdEvents) (htb : 1 ≤ opts.workerThresholdBytes) :
    (∀ (bodyText : JSValue) (workerAvailable : Bool),
      WJS.backgroundSelected bodyText opts workerAvailable =
        (bodyText.truthy && workerAvailable && opts.useWorker &&
          (decide (opts.workerThresholdEvents ≤ (WJS.estimates bodyText).2) ||
            decide (opts.workerThresholdBytes ≤ (WJS.estimates bodyText).1)))) ∧
    WJS.backgroundSelected (.arr (List.replicate 101 (.num 1))) WJS.DEFAULTS true =
      true ∧
    WJS.backgroundSelected (.arr (List.replicate 99 (.num 1))) WJS.DEFAULTS true =
      false := by
  have hb : WJS.estimateUtf8Bytes
      (String.mk (jsonStringifyV (.arr (List.replicate 99 (JSValue.num 1))))) <
      51200 := by
    unfold WJS.estimateUtf8Bytes
    have h1 := utf8Encode_length_le
      (String.mk (jsonStringifyV (.arr (List.replicate 99 (JSValue.num 1))))).data
    have h2 : (String.mk
        (jsonStringifyV (.arr (List.replicate 99 (JSValue.num 1))))).data.length =
        199 := by
      show (jsonStringifyV (.arr (List.replicate 99 (JSValue.num 1)))).length = 199
      rw [show (99 : Nat) = 98 + 1 from rfl, jsonStringifyV_arr_replicate_one_length]
    rw [h2] at h1
    omega
  have hd : decide (WJS.DEFAULTS.workerThresholdBytes ≤ WJS.estimateUtf8Bytes
      (String.mk (jsonStringifyV (.arr (List.replicate 99 (JSValue.num 1)))))) =
      false := by
    apply decide_eq_false
    have hf : WJS.DEFAULTS.workerThresholdBytes = 51200 := rfl
    rw [hf]
    omega
  refine ⟨?_, by rfl, ?_⟩
  case refine_2 =>
    unfold WJS.backgroundSelected WJS.shouldUseWorker WJS.estimates
    dsimp only
    rw [hd]
    simp [WJS.DEFAULTS, JSValue.truthy]
  intro bodyText workerAvailable
  simp only [WJS.backgroundSelected, WJS.shouldUseWorker]
  rw [truthyGate _ _ hte, truthyGate _ _ htb]
  cases ht : bodyText.truthy <;> cases hw : workerAvailable <;>
    cases hu : opts.useWorker <;>
    cases h1 : decide (opts.workerThresholdEvents ≤ (WJS.estimates bodyText).2) <;>
    cases h2 : decide (opts.workerThresholdBytes ≤ (WJS.estimates bodyText).1) <;>
    simp [ht, hw, hu, h1, h2]

theorem C4_dispatch_decision_witness :
    (∀ (bodyText : JSValue) (workerAvailable : Bool),
      WJS.backgroundSelected bodyText WJS.DEFAULTS workerAvailable =
        (bodyText.truthy && workerAvailable && WJS.DEFAULTS.useWorker &&
          (decide (WJS.DEFAULTS.workerThresholdEvents ≤ (WJS.estimates bodyText).2) ||
            decide (WJS.DEFAULTS.workerThresholdBytes ≤
              (WJS.estimates bodyText).1)))) ∧
    WJS.backgroundSelected (.arr (List.replicate 101 (.num 1))) WJS.DEFAULTS true =
      true ∧
    WJS.backgroundSelected (.arr (List.replicate 99 (.num 1))) WJS.DEFAULTS true =
      false :=
  C4_dispatch_decision WJS.DEFAULTS (by decide) (by decide)


/-- C6: for a self-describing event whose carrier decodes to
`\x7bschema: s, data: \x7bdata: \x7bfoo: 1\x7d\x7d\x7d` the normalized payload is
`\x7bfoo: 1\x7d` — the nested `data` object is unwrapped exactly one extra
level — and a triple-wrapped carrier keeps one `data` layer:
`\x7bdata: \x7bfoo: 1\x7d\x7d`. -/
theorem C6_double_unwrap :
    (CJS.parseSnowplowEvent
        (.obj [(kE, .str "ue"),
          (kUnstructEvent, .obj [(kSchema, .str "s"),
            (kData, .obj [(kData, .obj [("foo", .num 1)])])])]) .undef 0).getField
        kPayload = .obj [("foo", .num 1)] ∧
    (CJS.parseSnowplowEvent
        (.obj [(kE, .str "ue"),
          (kUnstructEvent, .obj [(kSchema, .str "s"),
            (kData, .obj [(kData, .obj [(kData, .obj [("foo", .num 1)])])])])])
        .undef 0).getField kPayload =
      .obj [(kData, .obj [("foo", .num 1)])] :=
  ⟨rfl, rfl⟩

theorem parseSnowplowEvent_no_wire_keys (ev enc : JSValue) (now : Int) :
    (CJS.parseSnowplowEvent ev enc now).getField kE = .undef ∧
    (CJS.parseSnowplowEvent ev enc now).getField kEvent = .undef ∧
    (CJS.parseSnowplowEvent ev enc now).typeofObject = true := by
  unfold CJS.parseSnowplowEvent
  split
  · exact ⟨rfl, rfl, rfl⟩
  · split
    · refine ⟨?_, ?_, rfl⟩ <;>
        simp [JSValue.getField, commonFields, kE, kEvent, kEventType, kCategory,
          kAction, kLabel, kProperty, kEid, kTs, kVid, kSid, kP, kUrl, kRaw,
          List.find?]
    · split
      · refine ⟨?_, ?_, rfl⟩ <;>
          simp [JSValue.getField, commonFields, kE, kEvent, kEventType, kSchema,
            kPayload, kEid, kTs, kVid, kSid, kP, kUrl, kRaw, List.find?]
      · split
        · refine ⟨?_, ?_, rfl⟩ <;>
            simp [JSValue.getField, kE, kEvent, kEventType, kTitle, kUrl,
              kReferrer, kEid, kTs, kVid, kSid, kP, kRaw, List.find?]
        · refine ⟨?_, ?_, rfl⟩ <;>
            simp [JSValue.getField, commonFields, kE, kEvent, kEventType,
              kPayload, kEid, kTs, kVid, kSid, kP, kUrl, kRaw, List.find?]

theorem parseSnowplowEvent_fallback_shape (E enc : JSValue) (now : Int)
    (ht : E.truthy = true) (ho : E.typeofObject = true)
    (he : E.getField kE = .undef) (hev : E.getField kEvent = .undef) :
    CJS.parseSnowplowEvent E enc now =
      .obj ((kEventType, .str sUnknown) :: (kPayload, E) :: commonFields E now) := by
  unfold CJS.parseSnowplowEvent
  rw [if_neg (by simp [ht, ho]),
    if_neg (by rw [he]; simp [strictEqStr]),
    if_neg (by rw [he]; simp [strictEqStr]),
    if_neg (by rw [he, hev]; simp [strictEqStr])]
  rw [he, hev]
  simp [JSValue.jsOr, JSValue.truthy]

/-- C7 (amended): normalization is not idempotent on canonical output — a
canonical event carries `eventType`, never the wire keys `e` or `event`, so
re-normalizing any truthy normalization result always lands in the fallback
branch: the second pass rewrites `eventType` to the string `unknown` and
wraps the whole first-pass record as the new `payload`. -/
theorem C7_renormalize_fallback (ev enc enc2 : JSValue) (now now2 : Int)
    (h : (CJS.parseSnowplowEvent ev enc now).truthy = true) :
    (CJS.parseSnowplowEvent (CJS.parseSnowplowEvent ev enc now) enc2 now2).getField
        kEventType = .str sUnknown ∧
    (CJS.parseSnowplowEvent (CJS.parseSnowplowEvent ev enc now) enc2 now2).getField
        kPayload = CJS.parseSnowplowEvent ev enc now := by
  obtain ⟨he, hev, ho⟩ := parseSnowplowEvent_no_wire_keys ev enc now
  rw [parseSnowplowEvent_fallback_shape _ enc2 now2 h ho he hev]
  constructor
  · simp [JSValue.getField, List.find?]
  · simp [JSValue.getField, List.find?, kEventType, kPayload]

/-- C7 counterexample: normalizing the canonical record of a page-view
event a second time changes its `eventType` from `page_view` to `unknown`,
so normalization is not idempotent on canonical output. -/
theorem C7_counterexample :
    (CJS.parseSnowplowEvent
        (CJS.parseSnowplowEvent (.obj [(kE, .str "pv")]) .undef 0) .undef 0).getField
        kEventType ≠
      (CJS.parseSnowplowEvent (.obj [(kE, .str "pv")]) .undef 0).getField
        kEventType := by
  have h1 : (CJS.parseSnowplowEvent
      (CJS.parseSnowplowEvent (.obj [(kE, .str "pv")]) .undef 0) .undef 0).getField
      kEventType = .str sUnknown := rfl
  have h2 : (CJS.parseSnowplowEvent (.obj [(kE, .str "pv")]) .undef 0).getField
      kEventType = .str sPageView := rfl
  rw [h1, h2]
  intro hcon
  simp [sUnknown, sPageView] at hcon

theorem C7_renormalize_fallback_witness :
    (CJS.parseSnowplowEvent (.obj [(kE, .str "pv")]) .undef 0).truthy = true ∧
    ((CJS.parseSnowplowEvent
        (CJS.parseSnowplowEvent (.obj [(kE, .str "pv")]) .undef 0) .undef 1).getField
        kEventType = .str sUnknown ∧
      (CJS.parseSnowplowEvent
        (CJS.parseSnowplowEvent (.obj [(kE, .str "pv")]) .undef 0) .undef 1).getField
        kPayload = CJS.parseSnowplowEvent (.obj [(kE, .str "pv")]) .undef 0) :=
  ⟨rfl, C7_renormalize_fallback (.obj [(kE, .str "pv")]) .undef .undef 0 1 rfl⟩

/-- C9 (amended): the normalized record carries a `payload` key exactly in
the self-describing and fallback branches; the structured-event and
page-view branches emit records without any `payload` field.  So "payload
never absent" holds for unstruct and fallback events only. -/
theorem C9_payload_presence (ev enc : JSValue) (now : Int)
    (ht : ev.truthy = true) (ho : ev.typeofObject = true) :
    ((strictEqStr (ev.getField kE) sSe ||
        strictEqStr (ev.getField kE) sStructuredEvent) = true →
      (CJS.parseSnowplowEvent ev enc now).hasField kPayload = false) ∧
    ((strictEqStr (ev.getField kE) sSe ||
        strictEqStr (ev.getField kE) sStructuredEvent) = false →
      (strictEqStr (ev.getField kE) sUe ||
        strictEqStr (ev.getField kE) sUnstruct) = true →
      (CJS.parseSnowplowEvent ev enc now).hasField kPayload = true) ∧
    ((strictEqStr (ev.getField kE) sSe ||
        strictEqStr (ev.getField kE) sStructuredEvent) = false →
      (strictEqStr (ev.getField kE) sUe ||
        strictEqStr (ev.getField kE) sUnstruct) = false →
      (strictEqStr (ev.getField kEvent) sPageView ||
        strictEqStr (ev.getField kE) sPv) = true →
      (CJS.parseSnowplowEvent ev enc now).hasField kPayload = false) ∧
    ((strictEqStr (ev.getField kE) sSe ||
        strictEqStr (ev.getField kE) sStructuredEvent) = false →
      (strictEqStr (ev.getField kE) sUe ||
        strictEqStr (ev.getField kE) sUnstruct) = false →
      (strictEqStr (ev.getField kEvent) sPageView ||
        strictEqStr (ev.getField kE) sPv) = false →
      (CJS.parseSnowplowEvent ev enc now).hasField kPayload = true) := by
  refine ⟨?_, ?_, ?_, ?_⟩
  · intro h1
    unfold CJS.parseSnowplowEvent
    rw [if_neg (by simp [ht, ho]), if_pos h1]
    simp [JSValue.hasField, commonFields, kPayload, kEventType, kCategory,
      kAction, kLabel, kProperty, kEid, kTs, kVid, kSid, kP, kUrl, kRaw]
  · intro h1 h2
    unfold CJS.parseSnowplowEvent
    rw [if_neg (by simp [ht, ho]), if_neg (by rw [h1]; simp), if_pos h2]
    simp [JSValue.hasField, commonFields, kPayload, kEventType, kSchema]
  · intro h1 h2 h3
    unfold CJS.parseSnowplowEvent
    rw [if_neg (by simp [ht, ho]), if_neg (by rw [h1]; simp),
      if_neg (by rw [h2]; simp), if_pos h3]
    simp [JSValue.hasField, kPayload, kEventType, kTitle, kUrl, kReferrer,
      kEid, kTs, kVid, kSid, kP, kRaw]
  · intro h1 h2 h3
    unfold CJS.parseSnowplowEvent
    rw [if_neg (by simp [ht, ho]), if_neg (by rw [h1]; simp),
      if_neg (by rw [h2]; simp), if_neg (by rw [h3]; simp)]
    simp [JSValue.hasField, commonFields, kPayload, kEventType]

/-- C9 counterexample: normalizing the structured event `\x7be: se\x7d`
produces a record with no `payload` field at all, refuting "payload present
in all four dispatch branches". -/
theorem C9_counterexample :
    (CJS.parseSnowplowEvent (.obj [(kE, .str "se")]) .undef 0).hasField kPayload =
      false := rfl

theorem C9_payload_presence_witness :
    (JSValue.obj [(kE, .str "ue")]).truthy = true ∧
    (((strictEqStr ((JSValue.obj [(kE, .str "ue")]).getField kE) sSe ||
        strictEqStr ((JSValue.obj [(kE, .str "ue")]).getField kE)
          sStructuredEvent) = true →
      (CJS.parseSnowplowEvent (.obj [(kE, .str "ue")]) .undef 0).hasField kPayload =
        false) ∧
    ((strictEqStr ((JSValue.obj [(kE, .str "ue")]).getField kE) sSe ||
        strictEqStr ((JSValue.obj [(kE, .str "ue")]).getField kE)
          sStructuredEvent) = false →
      (strictEqStr ((JSValue.obj [(kE, .str "ue")]).getField kE) sUe ||
        strictEqStr ((JSValue.obj [(kE, .str "ue")]).getField kE) sUnstruct) =
        true →
      (CJS.parseSnowplowEvent (.obj [(kE, .str "ue")]) .undef 0).hasField kPayload =
        true) ∧
    ((strictEqStr ((JSValue.obj [(kE, .str "ue")]).getField kE) sSe ||
        strictEqStr ((JSValue.obj [(kE, .str "ue")]).getField kE)
          sStructuredEvent) = false →
      (strictEqStr ((JSValue.obj [(kE, .str "ue")]).getField kE) sUe ||
        strictEqStr ((JSValue.obj [(kE, .str "ue")]).getField kE) sUnstruct) =
        false →
      (strictEqStr ((JSValue.obj [(kE, .str "ue")]).getField kEvent) sPageView ||
        strictEqStr ((JSValue.obj [(kE, .str "ue")]).getField kE) sPv) = true →
      (CJS.parseSnowplowEvent (.obj [(kE, .str "ue")]) .undef 0).hasField kPayload =
        false) ∧
    ((strictEqStr ((JSValue.obj [(kE, .str "ue")]).getField kE) sSe ||
        strictEqStr ((JSValue.obj [(kE, .str "ue")]).getField kE)
          sStructuredEvent) = false →
      (strictEqStr ((JSValue.obj [(kE, .str "ue")]).getField kE) sUe ||
        strictEqStr ((JSValue.obj [(kE, .str "ue")]).getField kE) sUnstruct) =
        false →
      (strictEqStr ((JSValue.obj [(kE, .str "ue")]).getField kEvent) sPageView ||
        strictEqStr ((JSValue.obj [(kE, .str "ue")]).getField kE) sPv) = false →
      (CJS.parseSnowplowEvent (.obj [(kE, .str "ue")]) .undef 0).hasField kPayload =
        true)) :=
  ⟨rfl, C9_payload_presence (.obj [(kE, .str "ue")]) .undef 0 rfl rfl⟩


/-- C8 (amended): when both decoders fail on the trimmed input — JSON
parsing returns null and base64-to-JSON decoding returns null — the parser
returns exactly one `raw_text` event, but its payload is the TRIMMED input
string, not the original input verbatim. -/
theorem C8_raw_text_trimmed (s : String) (enc : JSValue) (now : Int)
    (hp : CJS.tryParseJsonSafe (.str (jsTrim s)) = .null)
    (hd : CJS.tryDecodeBase64JsonSafe (.str (jsTrim s)) = .null) :
    CJS.parseSync (.str s) enc now =
      [.obj [(kEventType, .str sRawText), (kPayload, .str (jsTrim s))]] := by
  simp only [CJS.parseSync]
  rw [if_neg (by simp [JSValue.looseNull])]
  rw [hp, hd]
  split <;> rw [if_neg (by simp [isNullV]), if_neg (by simp [isNullV])]

/-- C8 counterexample: on the input string with a leading blank,
the single raw-text event's payload is the trimmed text, not the original
string verbatim. -/
theorem C8_counterexample :
    CJS.parseSync (.str " x###") .undef 0 ≠
      [.obj [(kEventType, .str sRawText), (kPayload, .str " x###")]] := by
  have h1 : CJS.parseSync (.str " x###") .undef 0 =
      [.obj [(kEventType, .str sRawText), (kPayload, .str "x###")]] := rfl
  rw [h1]
  intro hcon
  simp [kEventType, kPayload, sRawText] at hcon

theorem C8_raw_text_trimmed_witness :
    CJS.tryParseJsonSafe (.str (jsTrim " x###")) = .null ∧
    CJS.tryDecodeBase64JsonSafe (.str (jsTrim " x###")) = .null ∧
    CJS.parseSync (.str " x###") .undef 0 =
      [.obj [(kEventType, .str sRawText), (kPayload, .str (jsTrim " x###"))]] :=
  ⟨rfl, rfl, C8_raw_text_trimmed " x###" .undef 0 rfl rfl⟩

/-- C10: for a well-formed envelope `\x7bschema, data: [...]\x7d` whose data
elements are all truthy objects, the batch is exactly the elementwise
normalization of `data` — same length, same order. -/
theorem C10_envelope_order (sch enc : JSValue) (xs : List JSValue) (now : Int)
    (hs : sch.truthy = true)
    (hx : ∀ x ∈ xs, x.truthy = true ∧ x.typeofObject = true) :
    CJS.parseSync (.obj [(kSchema, sch), (kData, .arr xs)]) enc now =
      xs.map (fun x => CJS.parseSnowplowEvent x enc now) ∧
    (CJS.parseSync (.obj [(kSchema, sch), (kData, .arr xs)]) enc now).length =
      xs.length := by
  have hgs : (JSValue.obj [(kSchema, sch), (kData, .arr xs)]).getField kSchema =
      sch := by
    simp [JSValue.getField, List.find?]
  have hgd : (JSValue.obj [(kSchema, sch), (kData, .arr xs)]).getField kData =
      .arr xs := by
    simp [JSValue.getField, List.find?, kSchema, kData]
  have hmain : CJS.parseSync (.obj [(kSchema, sch), (kData, .arr xs)]) enc now =
      xs.map (fun x => CJS.parseSnowplowEvent x enc now) := by
    simp only [CJS.parseSync]
    rw [if_neg (by simp [JSValue.looseNull])]
    show CJS.parseParsed (.obj [(kSchema, sch), (kData, .arr xs)]) enc now = _
    simp only [CJS.parseParsed]
    rw [if_pos (by simp [JSValue.truthy, JSValue.typeofObject]),
      if_pos (by rw [hgs, hgd]; simp [hs, JSValue.isArray]), hgd]
    show (xs.map (fun ev => CJS.parseSnowplowEvent ev enc now)).filter
        JSValue.truthy = _
    rw [List.filter_eq_self.mpr]
    intro a ha
    obtain ⟨y, hy, rfl⟩ := List.mem_map.mp ha
    obtain ⟨w, fs, hobj⟩ := CJS.parseSnowplowEvent_obj y enc now (hx y hy).1 (hx y hy).2
    rw [hobj]
    rfl
  refine ⟨hmain, ?_⟩
  rw [hmain]
  simp

theorem C10_envelope_order_witness :
    (JSValue.str "s").truthy = true ∧
    (∀ x ∈ [JSValue.obj [(kE, .str "pv")]], x.truthy = true ∧ x.typeofObject = true) ∧
    (CJS.parseSync (.obj [(kSchema, .str "s"),
        (kData, .arr [JSValue.obj [(kE, .str "pv")]])]) .undef 0 =
      [JSValue.obj [(kE, .str "pv")]].map (fun x => CJS.parseSnowplowEvent x .undef 0) ∧
    (CJS.parseSync (.obj [(kSchema, .str "s"),
        (kData, .arr [JSValue.obj [(kE, .str "pv")]])]) .undef 0).length =
      [JSValue.obj [(kE, .str "pv")]].length) :=
  ⟨rfl, by intro x hx; rw [List.mem_singleton] at hx; subst hx; exact ⟨rfl, rfl⟩,
   C10_envelope_order (.str "s") .undef [JSValue.obj [(kE, .str "pv")]] 0 rfl
     (by intro x hx; rw [List.mem_singleton] at hx; subst hx; exact ⟨rfl, rfl⟩)⟩


theorem WJS.parseSync_not_string (v : JSValue) (now : Int)
    (ht : v.truthy = true) (hns : v.typeofString = false) :
    WJS.parseSync v now = WJS.parseParsed v now := by
  simp only [WJS.parseSync]
  rw [if_neg (by simp [ht])]
  cases v with
  | str s => simp [JSValue.typeofString] at hns
  | undef => rfl
  | null => rfl
  | bool b => rfl
  | num n => rfl
  | arr xs => rfl
  | obj fs => rfl

theorem WJS.parseParsed_arr (xs : List JSValue) (now : Int) :
    WJS.parseParsed (.arr xs) now =
      (xs.map (fun ev => WJS.parseSnowplowEvent ev now)).filter JSValue.truthy := by
  simp only [WJS.parseParsed]
  rw [if_pos (by simp [JSValue.truthy, JSValue.typeofObject]),
    if_neg (by simp [JSValue.getField, JSValue.truthy]),
    if_pos (by simp [JSValue.isArray])]

theorem WJS.parseSync_arr (xs : List JSValue) (now : Int) :
    WJS.parseSync (.arr xs) now =
      (xs.map (fun ev => WJS.parseSnowplowEvent ev now)).filter JSValue.truthy := by
  rw [WJS.parseSync_not_string (.arr xs) now rfl rfl, WJS.parseParsed_arr]

/-- C2 (amended): the chunked path equals the synchronous parser on every
non-string payload — objects, envelopes, and bare arrays of every length —
and on every string that is its own trim and JSON-parses to a truthy
object or array behind its brace/bracket delimiters.  For other string
payloads the two paths can disagree (see the counterexample): chunking is
scheduling-only exactly on this domain. -/
theorem C2_chunked_matches_sync (opts : WJS.WOpts) (now : Int)
    (hcs : 1 ≤ opts.chunkSize) :
    (∀ bodyText : JSValue, bodyText.typeofString = false →
      WJS.parseInChunks bodyText opts now = WJS.parseSync bodyText now) ∧
    (∀ (s : String) (v : JSValue), jsTrim s = s →
      ((strStartsWithChar s '{' && strEndsWithChar s '}') ||
        (strStartsWithChar s '[' && strEndsWithChar s ']')) = true →
      jsonParse s = some v → v.truthy = true → v.typeofObject = true →
      WJS.parseInChunks (.str s) opts now = WJS.parseSync (.str s) now) := by
  have hstep : ∀ v : JSValue, v.truthy = true → v.typeofObject = true →
      (match v with
        | JSValue.arr xs =>
          if opts.chunkSize < xs.length then WJS.chunkedLoop opts.chunkSize now xs
          else WJS.parseSync v now
        | _ => WJS.parseSync v now) = WJS.parseParsed v now := by
    intro v ht ho
    match v with
    | .null => simp [JSValue.truthy] at ht
    | .arr xs =>
      show (if opts.chunkSize < xs.length then WJS.chunkedLoop opts.chunkSize now xs
        else WJS.parseSync (.arr xs) now) = _
      rw [WJS.parseParsed_arr]
      split
      · exact WJS.chunkedLoop_eq opts.chunkSize hcs now xs
      · rw [WJS.parseSync_arr]
    | .obj fs =>
      show WJS.parseSync (.obj fs) now = _
      rw [WJS.parseSync_not_string (.obj fs) now rfl rfl]
  constructor
  · intro bodyText hns
    cases bodyText with
    | str s => simp [JSValue.typeofString] at hns
    | undef => rfl
    | null => rfl
    | bool b => rfl
    | num n => rfl
    | arr xs =>
      show (if opts.chunkSize < xs.length then WJS.chunkedLoop opts.chunkSize now xs
          else WJS.parseSync (.arr xs) now) = WJS.parseSync (.arr xs) now
      split
      · rw [WJS.chunkedLoop_eq opts.chunkSize hcs now xs, WJS.parseSync_arr]
      · rfl
    | obj fs => rfl
  · intro s v htrim hbrace hjson htruthy hobj
    have hne : s.data ≠ [] := by
      intro hnil
      simp [strStartsWithChar, hnil] at hbrace
    have hsne : (JSValue.str s).truthy = true := by
      simp only [JSValue.truthy, bne_iff_ne, ne_eq, decide_eq_true_eq]
      intro hcon
      exact hne (by rw [hcon])
    have hlhs : WJS.parseInChunks (.str s) opts now = WJS.parseParsed v now := by
      simp only [WJS.parseInChunks]
      rw [hjson]
      exact hstep v htruthy hobj
    have hrhs : WJS.parseSync (.str s) now = WJS.parseParsed v now := by
      simp only [WJS.parseSync]
      rw [if_neg (by simp [hsne]), htrim, if_pos hbrace, hjson]
    rw [hlhs, hrhs]

/-- C2 counterexample: on the scalar JSON string 123 the chunked path
JSON-parses the whole string and yields an unknown-type event with numeric
payload, while the synchronous parser never JSON-parses a brace-less
string and yields a raw-text event — the two paths differ. -/
theorem C2_counterexample :
    WJS.parseInChunks (.str "123") WJS.DEFAULTS 0 ≠ WJS.parseSync (.str "123") 0 := by
  have h1 : WJS.parseInChunks (.str "123") WJS.DEFAULTS 0 =
      [.obj [(kEventType, .str sUnknown), (kPayload, .num 123)]] := rfl
  have h2 : WJS.parseSync (.str "123") 0 =
      [.obj [(kEventType, .str sRawText), (kPayload, .str "123")]] := rfl
  rw [h1, h2]
  intro hcon
  simp [kEventType, kPayload, sUnknown, sRawText] at hcon

theorem C2_chunked_matches_sync_witness :
    (∀ bodyText : JSValue, bodyText.typeofString = false →
      WJS.parseInChunks bodyText WJS.DEFAULTS 7 = WJS.parseSync bodyText 7) ∧
    (∀ (s : String) (v : JSValue), jsTrim s = s →
      ((strStartsWithChar s '{' && strEndsWithChar s '}') ||
        (strStartsWithChar s '[' && strEndsWithChar s ']')) = true →
      jsonParse s = some v → v.truthy = true → v.typeofObject = true →
      WJS.parseInChunks (.str s) WJS.DEFAULTS 7 = WJS.parseSync (.str s) 7) :=
  C2_chunked_matches_sync WJS.DEFAULTS 7 (by decide)


/-- The URL-safe alphabet substitution used by the round-trip claim's
encoding direction (plus to minus, slash to underscore). -/
def stdToUrl (c : Char) : Char :=
  if c = '+' then '-' else if c = '/' then '_' else c

/-- URL-safe base64 text of a byte sequence: the encoding whose decoding
the spec's round-trip property asserts. -/
def b64UrlOfBytes (bs : List Nat) : String :=
  String.mk ((b64Encode bs).map stdToUrl)

theorem b64Encode_no_url_chars (bs : List Nat) (h : ∀ b ∈ bs, b < 256) :
    ∀ c ∈ b64Encode bs, c ≠ '-' ∧ c ≠ '_' := by
  intro c hc
  unfold b64Encode at hc
  rcases List.mem_append.mp hc with hcore | hpad
  · have hfacts := b64EncodeCore_not_eq_char bs h c hcore
    exact ⟨hfacts.2.1, hfacts.2.2.1⟩
  · have hceq : c = '=' := by
      split at hpad
      · exact absurd hpad (List.not_mem_nil c)
      · split at hpad
        · rcases List.mem_cons.mp hpad with h1 | h1
          · exact h1
          · rw [List.mem_singleton] at h1
            exact h1
        · rw [List.mem_singleton] at hpad
          exact hpad
    subst hceq
    exact ⟨by decide, by decide⟩

theorem map_urlToStd_stdToUrl (l : List Char) (hl : ∀ c ∈ l, c ≠ '-' ∧ c ≠ '_') :
    (l.map stdToUrl).map urlToStd = l := by
  rw [List.map_map]
  have hid : ∀ c ∈ l, (urlToStd ∘ stdToUrl) c = id c := by
    intro c hc
    obtain ⟨h1, h2⟩ := hl c hc
    show urlToStd (stdToUrl c) = c
    by_cases hp : c = '+'
    · subst hp
      rfl
    · by_cases hs : c = '/'
      · subst hs
        rfl
      · unfold stdToUrl urlToStd
        rw [if_neg hp, if_neg hs, if_neg h1, if_neg h2]
  rw [List.map_congr_left hid, List.map_id]

theorem utf8EncodeChar_ne_nil (c : Char) : utf8EncodeChar c ≠ [] := by
  unfold utf8EncodeChar
  dsimp only
  split_ifs <;> simp

theorem utf8Encode_ne_nil (c : Char) (cs : List Char) : utf8Encode (c :: cs) ≠ [] := by
  simp only [utf8Encode, ne_eq]
  intro hcon
  rw [List.append_eq_nil] at hcon
  exact utf8EncodeChar_ne_nil c hcon.1

theorem b64Encode_ne_nil (bs : List Nat) (h : bs ≠ []) : b64Encode bs ≠ [] := by
  unfold b64Encode
  intro hcon
  rw [List.append_eq_nil] at hcon
  have hc := congrArg List.length hcon.1
  rw [b64EncodeCore_length] at hc
  simp only [List.length_nil] at hc
  have hlen : bs.length ≠ 0 := fun h0 => h (List.eq_nil_of_length_eq_zero h0)
  omega

/-- C5: for every JSON-serializable value v — including values carrying
multi-byte UTF-8 text — encoding JSON.stringify(v) as URL-safe base64 and
decoding through either file's base64-JSON decoder (alphabet translation,
padding to a multiple of four, binary decode, UTF-8 reinterpretation, JSON
parse) yields exactly v. -/
theorem C5_base64_json_roundtrip (v : JSValue) (hv : goodJson v = true) :
    CJS.tryDecodeBase64JsonSafe
        (.str (b64UrlOfBytes (utf8Encode (jsonStringify v).data))) = v ∧
    WJS.tryDecodeBase64Json
        (.str (b64UrlOfBytes (utf8Encode (jsonStringify v).data))) = v := by
  obtain ⟨c0, tl0, hhead, -, -, -, -, -⟩ := jsonStringifyV_head v
  set bs := utf8Encode (jsonStringify v).data with hbs
  have hsd : (jsonStringify v).data = jsonStringifyV v := rfl
  have hbsne : bs ≠ [] := by
    rw [hbs, hsd, hhead]
    exact utf8Encode_ne_nil c0 tl0
  have hlt : ∀ b ∈ bs, b < 256 := utf8Encode_lt256 _
  have hdata : (b64UrlOfBytes bs).data = (b64Encode bs).map stdToUrl := rfl
  have hmapid : ((b64Encode bs).map stdToUrl).map urlToStd = b64Encode bs :=
    map_urlToStd_stdToUrl _ (b64Encode_no_url_chars bs hlt)
  have hpad : padTo4 ((b64UrlOfBytes bs).data.map urlToStd) = b64Encode bs := by
    unfold padTo4
    rw [hdata, hmapid, b64Encode_length_mod4 bs]
    simp
  have hat : atobModel (String.mk (padTo4 ((b64UrlOfBytes bs).data.map urlToStd))) =
      some bs := by
    rw [hpad]
    exact atobModel_b64Encode bs hlt
  have hdec : utf8Decode bs = some (jsonStringify v).data := by
    rw [hbs]
    exact utf8Decode_encode _
  have heta : String.mk (jsonStringify v).data = jsonStringify v := rfl
  have hjson2 : jsonParse (jsonStringify v) = some v := jsonParse_stringify v hv
  have hstrne : (JSValue.str (jsonStringify v)).truthy = true := by
    simp only [JSValue.truthy, bne_iff_ne, ne_eq, decide_eq_true_eq]
    intro hcon
    have hnil : (jsonStringify v).data = [] := by rw [hcon]
    rw [hsd, hhead] at hnil
    exact List.cons_ne_nil c0 tl0 hnil
  constructor
  · simp only [CJS.tryDecodeBase64JsonSafe]
    have hlen0 : ¬ (b64UrlOfBytes bs).data.length = 0 := by
      rw [hdata, List.length_map]
      intro h0
      exact b64Encode_ne_nil bs hbsne (List.eq_nil_of_length_eq_zero h0)
    rw [if_neg hlen0, hat]
    dsimp only
    rw [if_neg (by simp [List.isEmpty_iff]; exact hbsne)]
    simp only [CJS.binaryStringToUtf8]
    rw [hdec]
    simp only [Option.map_some']
    rw [heta]
    simp only [CJS.tryParseJsonSafe, jsonParseJS]
    rw [hjson2]
    rfl
  · have hurlne : (JSValue.str (b64UrlOfBytes bs)).truthy = true := by
      simp only [JSValue.truthy, bne_iff_ne, ne_eq, decide_eq_true_eq]
      intro hcon
      apply b64Encode_ne_nil bs hbsne
      have hnil : (b64UrlOfBytes bs).data = [] := by rw [hcon]
      rw [hdata] at hnil
      exact List.map_eq_nil_iff.mp hnil
    have hb64s : WJS.base64DecodeToString (.str (b64UrlOfBytes bs)) =
        .str (jsonStringify v) := by
      simp only [WJS.base64DecodeToString]
      rw [if_neg (by simp [hurlne]), hat]
      dsimp only
      rw [hdec]
    simp only [WJS.tryDecodeBase64Json]
    rw [hb64s, if_neg (by simp [hstrne])]
    dsimp only
    rw [hjson2]
    rfl

theorem C5_base64_json_roundtrip_witness :
    goodJson (.obj [("a", .str "日😀"), ("b", .arr [.num (-5), .bool true, .null])]) =
      true ∧
    (CJS.tryDecodeBase64JsonSafe
        (.str (b64UrlOfBytes (utf8Encode (jsonStringify
          (.obj [("a", .str "日😀"),
            ("b", .arr [.num (-5), .bool true, .null])])).data))) =
      .obj [("a", .str "日😀"), ("b", .arr [.num (-5), .bool true, .null])] ∧
    WJS.tryDecodeBase64Json
        (.str (b64UrlOfBytes (utf8Encode (jsonStringify
          (.obj [("a", .str "日😀"),
            ("b", .arr [.num (-5), .bool true, .null])])).data))) =
      .obj [("a", .str "日😀"), ("b", .arr [.num (-5), .bool true, .null])]) :=
  ⟨by simp [goodJson, goodJsonFields, goodJsonList, keysDistinct],
   C5_base64_json_roundtrip
     (.obj [("a", .str "日😀"), ("b", .arr [.num (-5), .bool true, .null])])
     (by simp [goodJson, goodJsonFields, goodJsonList, keysDistinct])⟩

end FTT
